import Mathlib

/-!
Verification of the nanLanguage interpreter (src/nanLanguage.cpp) against its
natural-language specification.

The C++ program is shallowly embedded as follows.

* The numeric type `double` is modelled by `ℚ`.  All arithmetic appearing in
  the claims (small integers, comparisons, floor, the 1e-9 print tolerance) is
  exact in both `double` and `ℚ`; transcendental builtins (`sqrt`, `sin`, ...)
  are modelled as uninterpreted total functions because no claim depends on
  their values.  Division by zero yields `0` in `ℚ` where IEEE doubles give
  inf/NaN; the spec leaves that behaviour to the numeric type and no claim
  touches it.
* Strings are modelled as `List Char`; the recursive-descent parser threads
  the *remaining suffix* of the input, which coincides with the C++ position
  `pos` into the fixed string `s` (the suffix is exactly `s.substr(pos)`).
* The C++ call stack is modelled by a fuel parameter (structural recursion on
  `Nat`); `exprFuel` below is a documented over-approximation of the recursion
  depth the parser can use on a given input, so that for every input whose
  parse terminates within that depth the model computes the same answer as
  the C++ code.
* `std::map<std::string,double>` is modelled as an association list with
  in-place replacement on update; `std::cout` output is collected as a list
  of printed lines.
-/

namespace NanLang

/-! ### Character classification (C locale, as used via `<cctype>`) -/

/-- `std::isspace` in the C locale: space (32), tab (9), newline (10),
vertical tab (11), form feed (12), carriage return (13). -/
def cIsSpace (c : Char) : Bool :=
  c.toNat = 32 || (9 ≤ c.toNat && c.toNat ≤ 13)

/-- `std::isdigit`. -/
def cIsDigit (c : Char) : Bool :=
  48 ≤ c.toNat && c.toNat ≤ 57

/-- `std::isalpha` in the C locale. -/
def cIsAlpha (c : Char) : Bool :=
  (65 ≤ c.toNat && c.toNat ≤ 90) || (97 ≤ c.toNat && c.toNat ≤ 122)

/-- `std::isalnum` in the C locale. -/
def cIsAlnum (c : Char) : Bool :=
  cIsAlpha c || cIsDigit c

/-! ### Trimming helpers (`Interpreter::ltrim/rtrim/trim`) -/

/-- `Interpreter::ltrim`: drop leading whitespace. -/
def ltrim (s : List Char) : List Char := s.dropWhile cIsSpace

/-- `Interpreter::rtrim`: drop trailing whitespace. -/
def rtrim (s : List Char) : List Char := (s.reverse.dropWhile cIsSpace).reverse

/-- `Interpreter::trim`. -/
def trim (s : List Char) : List Char := rtrim (ltrim s)

/-! ### Decimal numerals

The C++ code converts numeral substrings with `std::stod` and prints integers
via `operator<<(long long)`.  Both directions are modelled with the explicit
digit functions below, about which the required inverse lemmas are proved.
-/

/-- The decimal digit character for `d` (defined by cases so its properties
are provable by `decide`). -/
def digitCh (d : Nat) : Char :=
  match d with
  | 0 => '0' | 1 => '1' | 2 => '2' | 3 => '3' | 4 => '4'
  | 5 => '5' | 6 => '6' | 7 => '7' | 8 => '8' | _ => '9'

/-- Numeric value of a digit character. -/
def digitVal (c : Char) : Nat := c.toNat - 48

/-- Fuelled most-significant-first decimal digit expansion. -/
def natToCharsF : Nat → Nat → List Char
  | 0, _ => []
  | f + 1, n => if n < 10 then [digitCh n] else natToCharsF f (n / 10) ++ [digitCh (n % 10)]

/-- Decimal digit string of `n` (no sign, no leading zeros, `0 ↦ "0"`). -/
def natToChars (n : Nat) : List Char := natToCharsF (n + 1) n

/-- Accumulating decimal read-back, `a` the value of the digits already seen. -/
def charsToNatAux (a : Nat) (l : List Char) : Nat :=
  l.foldl (fun a c => a * 10 + digitVal c) a

/-- Value of a decimal digit string. -/
def charsToNat (l : List Char) : Nat := charsToNatAux 0 l

/-! ### The variable store (`std::map<std::string, double>`) -/

/-- The variable store: an association list with unique keys in insertion
order; `vset` replaces in place, mirroring `variables[var] = value`. -/
def VarMap := List (String × ℚ)

/-- `variables.count(x) != 0` / reading `variables[x]` for an existing key. -/
def vlookup (m : VarMap) (x : String) : Option ℚ :=
  match m with
  | [] => none
  | (k, v) :: rest => if k = x then some v else vlookup rest x

/-- `variables[var] = value` (replace if present, append otherwise). -/
def vset (m : VarMap) (x : String) (v : ℚ) : VarMap :=
  match m with
  | [] => [(x, v)]
  | (k, w) :: rest => if k = x then (k, v) :: rest else (k, w) :: vset rest x v

/-! ### Expression parser scanning primitives (`ExprParser`)

The parser state `(s, pos)` is modelled by the remaining suffix
`s.substr(pos)` of the input; every primitive returns the new suffix.
-/

/-- `ExprParser::skipWs`. -/
def skipWs (xs : List Char) : List Char := xs.dropWhile cIsSpace

/-- `ExprParser::matchChar`: skip whitespace, then consume `c` if present. -/
def matchChar (c : Char) (xs : List Char) : Option (List Char) :=
  match skipWs xs with
  | d :: r => if d = c then some r else none
  | [] => none

/-- Boolean prefix test on character lists. -/
def listStarts : List Char → List Char → Bool
  | [], _ => true
  | _ :: _, [] => false
  | c :: t, d :: r => c = d && listStarts t r

/-- `ExprParser::matchStr`: skip whitespace, then consume the literal `t` if
it is a prefix of the rest. -/
def matchStr (t : List Char) (xs : List Char) : Option (List Char) :=
  let ys := skipWs xs
  if listStarts t ys then some (ys.drop t.length) else none

/-- `ExprParser::peek`: the next non-whitespace character, `'\0'` at end. -/
def peekc (xs : List Char) : Char :=
  match skipWs xs with
  | [] => '\x00'
  | c :: _ => c

/-- `ExprParser::fail`: the thrown message is
`errPrefix + msg + " near: '" + s.substr(pos) + "'"`. -/
def failMsg (et msg : String) (rem : List Char) : String :=
  et ++ msg ++ " near: \x27" ++ String.mk rem ++ "\x27"

/-- `ExprParser::truthy` (used through `&&`/`||`/`!`): non-zero means true. -/
def qtruthy (v : ℚ) : Bool := decide (v ≠ 0)

/-- `ExprParser::parseIdentifier`: empty string if the next character does not
start an identifier, otherwise the maximal `[A-Za-z_][A-Za-z0-9_]*` run. -/
def parseIdentifier (xs : List Char) : String × List Char :=
  let ys := skipWs xs
  match ys with
  | c :: _ =>
    if cIsAlpha c || c = '_' then
      (String.mk (ys.takeWhile fun d => cIsAlnum d || d = '_'),
       ys.dropWhile fun d => cIsAlnum d || d = '_')
    else ("", ys)
  | [] => ("", ys)

/-- `10^z` on `ℚ` for a signed exponent. -/
def tenPowZ : ℤ → ℚ
  | .ofNat n => (10 : ℚ) ^ n
  | .negSucc n => ((10 : ℚ) ^ (n + 1))⁻¹

/-- Value of a fraction-digit block: `"25" ↦ 0.25`. -/
def fracVal (ds : List Char) : ℚ :=
  (charsToNat ds : ℚ) / (10 : ℚ) ^ ds.length

/-- Whether the next character exists and satisfies `p`
(`pos < s.size() && p(s[pos])`). -/
def headIs (p : Char → Bool) (xs : List Char) : Bool :=
  match xs.head? with
  | some c => p c
  | none => false

/-- `ExprParser::parseNumber`.  The scan mirrors the C++ loop structure:
optional leading dot, digits, optional second dot with digits, optional
exponent whose marker (with its sign) is rolled back when no exponent digit
follows.  The consumed token is converted as `std::stod` converts it
(`stod` reads the longest valid prefix of the token, so when the scan took
a second dot the part from that dot on, and any exponent, contribute
nothing; for a token `".." + digits` it throws `std::invalid_argument`,
modelled as the raw error `"stod"`, which the statement-level handlers
print like any other failure). -/
def parseNumber (et : String) (xs0 : List Char) : Except String (ℚ × List Char) :=
  let xs := skipWs xs0
  if headIs (fun c => cIsDigit c || c = '.') xs then
    let leadDot := headIs (fun c => c = '.') xs
    let xs1 := if leadDot then xs.tail else xs
    let d1 := xs1.takeWhile cIsDigit
    let xs2 := xs1.dropWhile cIsDigit
    let dot2 := headIs (fun c => c = '.') xs2
    let d2 := if dot2 then xs2.tail.takeWhile cIsDigit else []
    let xs3 := if dot2 then xs2.tail.dropWhile cIsDigit else xs2
    let hasE := headIs (fun c => c = 'e' || c = 'E') xs3
    let sgn : ℤ := if headIs (fun c => c = '-') xs3.tail then -1 else 1
    let afterSgn :=
      if headIs (fun c => c = '+' || c = '-') xs3.tail then xs3.tail.tail else xs3.tail
    let ed := afterSgn.takeWhile cIsDigit
    let expOk := hasE && !ed.isEmpty
    let expo : ℤ := if expOk then sgn * (charsToNat ed : ℤ) else 0
    let xs4 := if expOk then afterSgn.dropWhile cIsDigit else xs3
    if d1.isEmpty && d2.isEmpty then .error (failMsg et "Expected number" xs4)
    else if leadDot then
      if d1.isEmpty then .error "stod"
      else if dot2 then .ok (fracVal d1, xs4)
      else .ok (fracVal d1 * tenPowZ expo, xs4)
    else .ok (((charsToNat d1 : ℚ) + fracVal d2) * tenPowZ expo, xs4)
  else .error (failMsg et "Expected number" xs)

/-! ### Built-in functions (`ExprParser::callFunction`)

`sqrt`, `sin`, `cos`, `tan`, `log`, `exp` and `pow` are transcendental on
doubles and have no faithful `ℚ` counterpart; no claim depends on their
values, so they are modelled as uninterpreted total functions (constantly 0).
`abs`, `floor`, `ceil`, `min`, `max` are modelled exactly. -/

def csqrt (_ : ℚ) : ℚ := 0

def csin (_ : ℚ) : ℚ := 0

def ccos (_ : ℚ) : ℚ := 0

def ctan (_ : ℚ) : ℚ := 0

def clog (_ : ℚ) : ℚ := 0

def cexp (_ : ℚ) : ℚ := 0

def cpow (_ _ : ℚ) : ℚ := 0

def cfabs (x : ℚ) : ℚ := |x|

def cfloor (x : ℚ) : ℚ := (⌊x⌋ : ℚ)

def cceil (x : ℚ) : ℚ := (⌈x⌉ : ℚ)

def cfmin (x y : ℚ) : ℚ := min x y

def cfmax (x y : ℚ) : ℚ := max x y

/-- Truncation toward zero, as in C++ `static_cast` and `std::fmod`. -/
def qtruncZ (q : ℚ) : ℤ := if 0 ≤ q then ⌊q⌋ else -⌊-q⌋

/-- `std::fmod` for doubles: `x - trunc(x/y) * y` (sign follows the
dividend).  For `y = 0` the double result is NaN, which `ℚ` cannot
represent; no claim evaluates `%` with zero divisor. -/
def cfmod (x y : ℚ) : ℚ := x - y * (qtruncZ (x / y) : ℚ)

/-- `ExprParser::callFunction`; `rem` is the remaining input at the point of
call, used only in failure messages. -/
def callFunction (et : String) (name : String) (args : List ℚ) (rem : List Char) :
    Except String ℚ :=
  if name = "sqrt" then
    if args.length ≠ 1 then .error (failMsg et "sqrt() expects 1 arg" rem)
    else .ok (csqrt (args.headD 0))
  else if name = "sin" then
    if args.length ≠ 1 then .error (failMsg et "sin() expects 1 arg" rem)
    else .ok (csin (args.headD 0))
  else if name = "cos" then
    if args.length ≠ 1 then .error (failMsg et "cos() expects 1 arg" rem)
    else .ok (ccos (args.headD 0))
  else if name = "tan" then
    if args.length ≠ 1 then .error (failMsg et "tan() expects 1 arg" rem)
    else .ok (ctan (args.headD 0))
  else if name = "abs" then
    if args.length ≠ 1 then .error (failMsg et "abs() expects 1 arg" rem)
    else .ok (cfabs (args.headD 0))
  else if name = "log" then
    if args.length ≠ 1 then .error (failMsg et "log() expects 1 arg" rem)
    else .ok (clog (args.headD 0))
  else if name = "exp" then
    if args.length ≠ 1 then .error (failMsg et "exp() expects 1 arg" rem)
    else .ok (cexp (args.headD 0))
  else if name = "floor" then
    if args.length ≠ 1 then .error (failMsg et "floor() expects 1 arg" rem)
    else .ok (cfloor (args.headD 0))
  else if name = "ceil" then
    if args.length ≠ 1 then .error (failMsg et "ceil() expects 1 arg" rem)
    else .ok (cceil (args.headD 0))
  else if name = "pow" then
    if args.length ≠ 2 then .error (failMsg et "pow() expects 2 args" rem)
    else .ok (cpow (args.getD 0 0) (args.getD 1 0))
  else if name = "min" then
    if args.length ≠ 2 then .error (failMsg et "min() expects 2 args" rem)
    else .ok (cfmin (args.getD 0 0) (args.getD 1 0))
  else if name = "max" then
    if args.length ≠ 2 then .error (failMsg et "max() expects 2 args" rem)
    else .ok (cfmax (args.getD 0 0) (args.getD 1 0))
  else .error (failMsg et ("Unknown function: " ++ name) rem)

/-! ### The recursive-descent grammar (`ExprParser::expr` ... `primary`)

The mutually recursive C++ member functions are embedded as one function
`parseGo` over a program-counter tag, so that the recursion is structural in
the fuel argument (which models the C++ call stack) and every concrete run
reduces definitionally.  Tag-to-source correspondence:

* `.expr`       — `expr()`
* `.lor` / `.lorLoop v`       — `logical_or()` and its `while` loop
* `.land` / `.landLoop v`     — `logical_and()`
* `.eq` / `.eqLoop v`         — `equality()`
* `.cmp` / `.cmpLoop v`       — `comparison()`
* `.term` / `.termLoop v`     — `term()`
* `.factor` / `.factorLoop v` — `factor()`
* `.unary`      — `unary()`
* `.primary`    — `primary()`
* `.argsStart id` / `.argsLoop id acc` — the argument list of `id(...)`
-/

inductive PTag where
  | expr
  | lor
  | lorLoop (v : ℚ)
  | land
  | landLoop (v : ℚ)
  | eq
  | eqLoop (v : ℚ)
  | cmp
  | cmpLoop (v : ℚ)
  | term
  | termLoop (v : ℚ)
  | factor
  | factorLoop (v : ℚ)
  | unary
  | primary
  | argsStart (id : String)
  | argsLoop (id : String) (acc : List ℚ)

/-- The expression parser.  Fuel 0 models C++ stack exhaustion and is never
reached at the fuel chosen by `evalExpr` for inputs of bounded nesting. -/
def parseGo (Γ : VarMap) (et : String) : PTag → Nat → List Char → Except String (ℚ × List Char)
  | _, 0, xs => .error (failMsg et "Expression too deep" xs)
  | t, f + 1, xs =>
    match t with
    | .expr => parseGo Γ et .lor f xs
    | .lor =>
      match parseGo Γ et .land f xs with
      | .error e => .error e
      | .ok (v, r) => parseGo Γ et (.lorLoop v) f r
    | .lorLoop v =>
      match matchStr ['|', '|'] xs with
      | some r =>
        match parseGo Γ et .land f r with
        | .error e => .error e
        | .ok (rv, r2) =>
          parseGo Γ et (.lorLoop (if qtruthy v || qtruthy rv then 1 else 0)) f r2
      | none => .ok (v, xs)
    | .land =>
      match parseGo Γ et .eq f xs with
      | .error e => .error e
      | .ok (v, r) => parseGo Γ et (.landLoop v) f r
    | .landLoop v =>
      match matchStr ['&', '&'] xs with
      | some r =>
        match parseGo Γ et .eq f r with
        | .error e => .error e
        | .ok (rv, r2) =>
          parseGo Γ et (.landLoop (if qtruthy v && qtruthy rv then 1 else 0)) f r2
      | none => .ok (v, xs)
    | .eq =>
      match parseGo Γ et .cmp f xs with
      | .error e => .error e
      | .ok (v, r) => parseGo Γ et (.eqLoop v) f r
    | .eqLoop v =>
      match matchStr ['=', '='] xs with
      | some r =>
        match parseGo Γ et .cmp f r with
        | .error e => .error e
        | .ok (rv, r2) => parseGo Γ et (.eqLoop (if v = rv then 1 else 0)) f r2
      | none =>
        match matchStr ['!', '='] xs with
        | some r =>
          match parseGo Γ et .cmp f r with
          | .error e => .error e
          | .ok (rv, r2) => parseGo Γ et (.eqLoop (if v ≠ rv then 1 else 0)) f r2
        | none => .ok (v, xs)
    | .cmp =>
      match parseGo Γ et .term f xs with
      | .error e => .error e
      | .ok (v, r) => parseGo Γ et (.cmpLoop v) f r
    | .cmpLoop v =>
      match matchStr ['>', '='] xs with
      | some r =>
        match parseGo Γ et .term f r with
        | .error e => .error e
        | .ok (rv, r2) => parseGo Γ et (.cmpLoop (if rv ≤ v then 1 else 0)) f r2
      | none =>
        match matchStr ['<', '='] xs with
        | some r =>
          match parseGo Γ et .term f r with
          | .error e => .error e
          | .ok (rv, r2) => parseGo Γ et (.cmpLoop (if v ≤ rv then 1 else 0)) f r2
        | none =>
          match matchChar '>' xs with
          | some r =>
            match parseGo Γ et .term f r with
            | .error e => .error e
            | .ok (rv, r2) => parseGo Γ et (.cmpLoop (if rv < v then 1 else 0)) f r2
          | none =>
            match matchChar '<' xs with
            | some r =>
              match parseGo Γ et .term f r with
              | .error e => .error e
              | .ok (rv, r2) => parseGo Γ et (.cmpLoop (if v < rv then 1 else 0)) f r2
            | none => .ok (v, xs)
    | .term =>
      match parseGo Γ et .factor f xs with
      | .error e => .error e
      | .ok (v, r) => parseGo Γ et (.termLoop v) f r
    | .termLoop v =>
      match matchChar '+' xs with
      | some r =>
        match parseGo Γ et .factor f r with
        | .error e => .error e
        | .ok (rv, r2) => parseGo Γ et (.termLoop (v + rv)) f r2
      | none =>
        match matchChar '-' xs with
        | some r =>
          match parseGo Γ et .factor f r with
          | .error e => .error e
          | .ok (rv, r2) => parseGo Γ et (.termLoop (v - rv)) f r2
        | none => .ok (v, xs)
    | .factor =>
      match parseGo Γ et .unary f xs with
      | .error e => .error e
      | .ok (v, r) => parseGo Γ et (.factorLoop v) f r
    | .factorLoop v =>
      match matchChar '*' xs with
      | some r =>
        match parseGo Γ et .unary f r with
        | .error e => .error e
        | .ok (rv, r2) => parseGo Γ et (.factorLoop (v * rv)) f r2
      | none =>
        match matchChar '/' xs with
        | some r =>
          match parseGo Γ et .unary f r with
          | .error e => .error e
          | .ok (rv, r2) => parseGo Γ et (.factorLoop (v / rv)) f r2
        | none =>
          match matchChar '%' xs with
          | some r =>
            match parseGo Γ et .unary f r with
            | .error e => .error e
            | .ok (rv, r2) => parseGo Γ et (.factorLoop (cfmod v rv)) f r2
          | none => .ok (v, xs)
    | .unary =>
      match matchChar '+' xs with
      | some r => parseGo Γ et .unary f r
      | none =>
        match matchChar '-' xs with
        | some r =>
          match parseGo Γ et .unary f r with
          | .error e => .error e
          | .ok (v, r2) => .ok (-v, r2)
        | none =>
          match matchChar '!' xs with
          | some r =>
            match parseGo Γ et .unary f r with
            | .error e => .error e
            | .ok (v, r2) => .ok (if qtruthy v then (0 : ℚ) else 1, r2)
          | none => parseGo Γ et .primary f xs
    | .primary =>
      match matchChar '(' xs with
      | some r =>
        match parseGo Γ et .expr f r with
        | .error e => .error e
        | .ok (v, r2) =>
          match matchChar ')' r2 with
          | some r3 => .ok (v, r3)
          | none => .error (failMsg et "Expected \x27)\x27" (skipWs r2))
      | none =>
        let ys := skipWs xs
        if cIsAlpha (peekc ys) || peekc ys = '_' then
          let idRes := parseIdentifier ys
          match matchChar '(' idRes.2 with
          | some r2 => parseGo Γ et (.argsStart idRes.1) f r2
          | none =>
            match vlookup Γ idRes.1 with
            | some v => .ok (v, idRes.2)
            | none =>
              .error (failMsg et ("Unknown variable: " ++ idRes.1) (skipWs idRes.2))
        else if cIsDigit (peekc ys) || peekc ys = '.' then
          parseNumber et ys
        else .error (failMsg et "Expected primary expression" ys)
    | .argsStart id =>
      match matchChar ')' xs with
      | some r =>
        match callFunction et id [] r with
        | .error e => .error e
        | .ok v => .ok (v, r)
      | none => parseGo Γ et (.argsLoop id []) f xs
    | .argsLoop id acc =>
      match parseGo Γ et .expr f xs with
      | .error e => .error e
      | .ok (v, r) =>
        match matchChar ')' r with
        | some r2 =>
          match callFunction et id (acc ++ [v]) r2 with
          | .error e => .error e
          | .ok w => .ok (w, r2)
        | none =>
          match matchChar ',' r with
          | some r2 => parseGo Γ et (.argsLoop id (acc ++ [v])) f r2
          | none => .error (failMsg et "Expected \x27,\x27 or \x27)\x27" (skipWs r))

/-- `ExprParser::eval`: parse a full expression and require the input to be
exhausted. -/
def peval (Γ : VarMap) (et : String) (f : Nat) (xs : List Char) : Except String ℚ :=
  match parseGo Γ et .expr f xs with
  | .error e => .error e
  | .ok (v, r) =>
    match skipWs r with
    | [] => .ok v
    | r2 => .error (failMsg et "Unexpected trailing characters" r2)

/-- Fuel bound used by `evalExpr`: between two fuel decrements the parser
either consumes an input character or moves strictly down the nine-level
grammar chain, so `10 * length + 30` dominates the recursion depth on any
input whose parse the C++ code completes. -/
def exprFuel (xs : List Char) : Nat := 10 * xs.length + 30

/-- `Interpreter::evalExpr`. -/
def evalExpr (Γ : VarMap) (s : String) (et : String := "Expr error: ") : Except String ℚ :=
  peval Γ et (exprFuel s.data) s.data

/-! ### Numeric output (`Interpreter::printNumberNicely`)

`std::round` rounds half away from zero; the printed integer is the
`long long` cast of the rounded value in decimal.  The `else` branch is
`std::cout << std::setprecision(12) << v`, i.e. `%.12g`: round to 12
significant digits, strip trailing zeros, fixed notation for decimal
exponents in `[-4, 12)` and scientific notation (exponent of at least two
digits) otherwise.  The tie direction of the 12th-digit rounding and the
binary-to-decimal rounding of doubles are below the 12 significant digits
every claim looks at. -/

/-- `std::round`: round half away from zero, as an integer. -/
def croundZ (v : ℚ) : ℤ := if 0 ≤ v then ⌊v + 1 / 2⌋ else -⌊-v + 1 / 2⌋

/-- Decimal rendering of an integer (`operator<<(long long)`). -/
def zRepr : ℤ → String
  | .ofNat n => String.mk (natToChars n)
  | .negSucc n => "-" ++ String.mk (natToChars (n + 1))

/-- Drop trailing `'0'` characters. -/
def stripZeros (l : List Char) : List Char := (l.reverse.dropWhile (· = '0')).reverse

/-- `%.12g` rendering of a rational. -/
def formatG12 (v : ℚ) : String :=
  if v = 0 then "0"
  else
    let sgn := if v < 0 then "-" else ""
    let a := |v|
    let g : ℤ := (natToChars a.num.natAbs).length - (natToChars a.den).length
    let e0 : ℤ := if a < tenPowZ g then g - 1 else g
    let n : ℤ := ⌊a * tenPowZ (11 - e0) + 1 / 2⌋
    let carried := n = 10 ^ (12 : ℕ)
    let n2 : ℤ := if carried then 10 ^ (11 : ℕ) else n
    let e : ℤ := if carried then e0 + 1 else e0
    let ds := natToChars n2.toNat
    if e < -4 || 12 ≤ e then
      let mant :=
        match ds with
        | [] => "0"
        | d :: rest =>
          let r2 := stripZeros rest
          if r2 = [] then String.mk [d] else String.mk [d] ++ "." ++ String.mk r2
      let ea := (if e < 0 then -e else e).toNat
      let eds := natToChars ea
      let eds2 := if eds.length < 2 then '0' :: eds else eds
      sgn ++ mant ++ "e" ++ (if e < 0 then "-" else "+") ++ String.mk eds2
    else if 0 ≤ e then
      let ip := ds.take (e.toNat + 1)
      let fp := stripZeros (ds.drop (e.toNat + 1))
      sgn ++ String.mk ip ++ (if fp = [] then "" else "." ++ String.mk fp)
    else
      let zeros := List.replicate (-e - 1).toNat '0'
      sgn ++ "0." ++ String.mk (zeros ++ stripZeros ds)

/-- `Interpreter::printNumberNicely`: one printed line for a value. -/
def printNumberNicely (v : ℚ) : String :=
  let rounded := croundZ v
  if |v - (rounded : ℚ)| < 1 / 1000000000 then zRepr rounded else formatG12 v

/-! ### The statement executor (`Interpreter::execute` / `runLine`)

Execution state: the variable store plus the list of lines printed so far
(`std::cout`, one entry per `"\n"`-terminated print). -/

structure St where
  vars : VarMap
  out : List String

/-- Append one printed line (`std::cout << ... << "\n"`). -/
def emit (st : St) (s : String) : St := { st with out := st.out ++ [s] }

/-- `std::getline` over an `istringstream`: split at `'\n'`, no final empty
line for a trailing newline, no lines at all for the empty string. -/
def linesGo (cur : List Char) : List Char → List (List Char)
  | [] => [cur.reverse]
  | c :: xs =>
    if c = '\n' then cur.reverse :: (if xs.isEmpty then [] else linesGo [] xs)
    else linesGo (c :: cur) xs

/-- The logical lines of a script, as read by repeated `std::getline`. -/
def linesOf (xs : List Char) : List (List Char) :=
  match xs with
  | [] => []
  | _ => linesGo [] xs

/-- `istringstream >> token`: skip whitespace, read a maximal non-whitespace
run (empty at end of input); returns the token and the rest of the line. -/
def readTok (xs : List Char) : String × List Char :=
  let ys := ltrim xs
  (String.mk (ys.takeWhile fun c => !cIsSpace c), ys.dropWhile fun c => !cIsSpace c)

/-- `Interpreter::runLine`: the single-line commands `print` / `set` / `add`,
comment and blank handling, and the unknown-command report. -/
def runLine (l : List Char) (st : St) : St :=
  let t := trim l
  if t = [] then st
  else if listStarts ("comment".data) t then st
  else
    let tok := readTok t
    let command := tok.1
    if command = "print" then
      let rest := trim tok.2
      if 2 ≤ rest.length ∧ rest.head? = some '"' ∧ rest.getLast? = some '"' then
        emit st (String.mk ((rest.drop 1).dropLast))
      else if rest ≠ [] ∧ (vlookup st.vars (String.mk rest)).isSome then
        emit st (printNumberNicely ((vlookup st.vars (String.mk rest)).getD 0))
      else
        match evalExpr st.vars (String.mk rest) "Print expr error: " with
        | .ok v => emit st (printNumberNicely v)
        | .error _ => emit st (String.mk rest)
    else if command = "set" then
      let varTok := readTok tok.2
      let var := varTok.1
      if var = "" then emit st "Syntax error: set needs a variable name"
      else
        let tokTok := readTok varTok.2
        if tokTok.1 ≠ "=" then
          let ex := trim (tokTok.1.data ++ tokTok.2)
          match evalExpr st.vars (String.mk ex) "Set expr error: " with
          | .ok v => { st with vars := vset st.vars var v }
          | .error e => emit st e
        else
          let ex := trim tokTok.2
          if ex = [] then emit st "Syntax error: set needs an expression"
          else
            match evalExpr st.vars (String.mk ex) "Set expr error: " with
            | .ok v => { st with vars := vset st.vars var v }
            | .error e => emit st e
    else if command = "add" then
      let varTok := readTok tok.2
      let var := varTok.1
      if var = "" then emit st "Syntax error: add needs a variable"
      else if (vlookup st.vars var).isNone then
        emit st ("Error: variable \x27" ++ var ++ "\x27 not found")
      else
        let ex := trim varTok.2
        if ex = [] then emit st "Syntax error: add needs a value/expression"
        else
          match evalExpr st.vars (String.mk ex) "Add expr error: " with
          | .ok v => { st with vars := vset st.vars var (((vlookup st.vars var).getD 0) + v) }
          | .error e => emit st e
    else emit st ("Unknown command: " ++ command)

/-- Split a token at its first `':'` (`varAndCount.find(':')`). -/
def splitColon : List Char → Option (List Char × List Char)
  | [] => none
  | c :: r =>
    if c = ':' then some ([], r)
    else
      match splitColon r with
      | none => none
      | some (a, b) => some (c :: a, b)

/-- `Interpreter::splitHeaderAndOpenParen`: the line must end in `'('`
(after trailing spaces); returns the right-trimmed part before it. -/
def splitHeader (line : List Char) : Option (List Char) :=
  let t := rtrim line
  match t.getLast? with
  | some c => if c = '(' then some (rtrim t.dropLast) else none
  | none => none

/-- A block header waiting for its closing `")"` line. -/
inductive Pending where
  | ploop (var : String) (countExpr : String)
  | pif (cond : String)

/-- `readBlock` accumulation: `block += blockLine + "\n"`. -/
def joinNL (ls : List (List Char)) : String :=
  String.mk (ls.foldr (fun l acc => l ++ '\n' :: acc) [])

/-- The code run when a captured block is complete (the code after the
`readBlock` call in the `loop` / `if` branches of `Interpreter::execute`):
evaluate the count/condition and run the captured text through the
recursive executor `execB`. -/
def finishPending (execB : String → St → St) (p : Pending) (accRev : List (List Char))
    (st : St) : St :=
  let block := joinNL accRev.reverse
  match p with
  | .ploop var countExpr =>
    match evalExpr st.vars countExpr "Loop count error: " with
    | .error e => emit st e
    | .ok c =>
      let count := ⌊c⌋
      (List.range count.toNat).foldl
        (fun (s : St) (i : ℕ) =>
          execB block { s with vars := vset s.vars var (i : ℚ) }) st
  | .pif cond =>
    match evalExpr st.vars cond "If condition error: " with
    | .error e => emit st e
    | .ok cv => if cv ≠ 0 then execB block st else st

/-- The line loop of `Interpreter::execute`.  The `none` mode is the main
`while (std::getline(...))` body; the `some (p, accRev)` mode is `readBlock`
inlined (lines are captured raw until the first line whose trimmed content is
exactly `")"`; reaching end of input also ends the block, as `getline`
failure does in C++).  `execB` is the recursive `execute` call used for
completed blocks. -/
def linesGoF (execB : String → St → St) :
    List (List Char) → Option (Pending × List (List Char)) → St → St
  | [], none, st => st
  | [], some (p, accRev), st => finishPending execB p accRev st
  | l :: rest, some (p, accRev), st =>
    if trim l = [')'] then
      linesGoF execB rest none (finishPending execB p accRev st)
    else
      linesGoF execB rest (some (p, l :: accRev)) st
  | l :: rest, none, st =>
    let line := trim l
    if line = [] then linesGoF execB rest none st
    else if listStarts ("comment".data) line then linesGoF execB rest none st
    else
      let tok := readTok line
      let command := tok.1
      if command = "loop" then
        let vcTok := readTok tok.2
        match splitColon vcTok.1.data with
        | none => linesGoF execB rest none (emit st "Syntax error: loop expects var:count")
        | some (var, countExpr) =>
          let opTok := readTok vcTok.2
          if opTok.1 ≠ "(" then
            linesGoF execB rest none (emit st "Syntax error: expected (")
          else
            linesGoF execB rest (some (.ploop (String.mk var) (String.mk countExpr), [])) st
      else if command = "if" then
        match splitHeader line with
        | none =>
          linesGoF execB rest none (emit st "Syntax error: if expects \x27(\x27 at end of line")
        | some beforeParen =>
          let condition := trim (beforeParen.drop 2)
          let condition2 :=
            if condition ≠ [] ∧ condition.head? = some ' ' then condition.drop 1 else condition
          linesGoF execB rest (some (.pif (String.mk (trim condition2)), [])) st
      else
        linesGoF execB rest none (runLine line st)

/-- `Interpreter::execute`.  The fuel models the C++ call stack and bounds
only the block-nesting depth; it is never exhausted at the bound chosen by
`run`, since a script of `k` lines nests blocks at most `k` deep. -/
def execGo : Nat → String → St → St
  | 0, _, st => st
  | f + 1, code, st => linesGoF (execGo f) (linesOf code.data) none st

/-- The interpreter started on a fresh store (`main` constructs a fresh
`Interpreter` and calls `execute`); the result is the printed output. -/
def initSt : St := ⟨[], []⟩

/-- Full program observable: the lines printed by `execute(script)`. -/
def run (code : String) : List String :=
  (execGo ((linesOf code.data).length + 1) code initSt).out

/-! ### Valid expressions and direct evaluation

For the universally quantified claims about the evaluator, the grammar of
the spec (section 4.1) is reified as mutually inductive syntax trees, one
type per precedence tier, with left-nested constructors for each operator
chain (so left associativity is part of the data).  `denote*` is direct
evaluation of such a tree; `print*` renders it in concrete syntax (numerals
and operators, no whitespace, parentheses exactly where the grammar
requires a `primary`).  The roundtrip theorems below state that the
recursive-descent evaluator maps every printed tree to its direct value. -/

mutual
inductive OrE where
  | one (a : AndE)
  | orr (l : OrE) (a : AndE)
inductive AndE where
  | one (e : EqE)
  | andd (l : AndE) (e : EqE)
inductive EqE where
  | one (c : CmpE)
  | eqq (l : EqE) (c : CmpE)
  | neq (l : EqE) (c : CmpE)
inductive CmpE where
  | one (t : TermE)
  | gtc (l : CmpE) (t : TermE)
  | ltc (l : CmpE) (t : TermE)
  | gec (l : CmpE) (t : TermE)
  | lec (l : CmpE) (t : TermE)
inductive TermE where
  | one (f : FacE)
  | add (l : TermE) (f : FacE)
  | sub (l : TermE) (f : FacE)
inductive FacE where
  | one (u : UnE)
  | mul (l : FacE) (u : UnE)
  | div (l : FacE) (u : UnE)
  | mod (l : FacE) (u : UnE)
inductive UnE where
  | prim (p : PrimE)
  | pos (u : UnE)
  | neg (u : UnE)
  | lnot (u : UnE)
inductive PrimE where
  | num (n : Nat)
  | paren (e : OrE)
end

mutual
/-- Direct evaluation of an `||` chain (left to right, booleans as 0/1). -/
def denoteOr : OrE → ℚ
  | .one a => denoteAnd a
  | .orr l a => if qtruthy (denoteOr l) || qtruthy (denoteAnd a) then 1 else 0
/-- Direct evaluation of an `&&` chain. -/
def denoteAnd : AndE → ℚ
  | .one e => denoteEq e
  | .andd l e => if qtruthy (denoteAnd l) && qtruthy (denoteEq e) then 1 else 0
/-- Direct evaluation of an equality chain. -/
def denoteEq : EqE → ℚ
  | .one c => denoteCmp c
  | .eqq l c => if denoteEq l = denoteCmp c then 1 else 0
  | .neq l c => if denoteEq l ≠ denoteCmp c then 1 else 0
/-- Direct evaluation of a comparison chain. -/
def denoteCmp : CmpE → ℚ
  | .one t => denoteTerm t
  | .gtc l t => if denoteTerm t < denoteCmp l then 1 else 0
  | .ltc l t => if denoteCmp l < denoteTerm t then 1 else 0
  | .gec l t => if denoteTerm t ≤ denoteCmp l then 1 else 0
  | .lec l t => if denoteCmp l ≤ denoteTerm t then 1 else 0
/-- Direct evaluation of an additive chain. -/
def denoteTerm : TermE → ℚ
  | .one f => denoteFac f
  | .add l f => denoteTerm l + denoteFac f
  | .sub l f => denoteTerm l - denoteFac f
/-- Direct evaluation of a multiplicative chain. -/
def denoteFac : FacE → ℚ
  | .one u => denoteUn u
  | .mul l u => denoteFac l * denoteUn u
  | .div l u => denoteFac l / denoteUn u
  | .mod l u => cfmod (denoteFac l) (denoteUn u)
/-- Direct evaluation of unary operators. -/
def denoteUn : UnE → ℚ
  | .prim p => denotePrim p
  | .pos u => denoteUn u
  | .neg u => -denoteUn u
  | .lnot u => if qtruthy (denoteUn u) then 0 else 1
/-- Direct evaluation of a primary. -/
def denotePrim : PrimE → ℚ
  | .num n => (n : ℚ)
  | .paren e => denoteOr e
end

mutual
/-- Concrete syntax of an `||` chain. -/
def printOr : OrE → List Char
  | .one a => printAnd a
  | .orr l a => printOr l ++ '|' :: '|' :: printAnd a
/-- Concrete syntax of an `&&` chain. -/
def printAnd : AndE → List Char
  | .one e => printEq e
  | .andd l e => printAnd l ++ '&' :: '&' :: printEq e
/-- Concrete syntax of an equality chain. -/
def printEq : EqE → List Char
  | .one c => printCmp c
  | .eqq l c => printEq l ++ '=' :: '=' :: printCmp c
  | .neq l c => printEq l ++ '!' :: '=' :: printCmp c
/-- Concrete syntax of a comparison chain. -/
def printCmp : CmpE → List Char
  | .one t => printTerm t
  | .gtc l t => printCmp l ++ '>' :: printTerm t
  | .ltc l t => printCmp l ++ '<' :: printTerm t
  | .gec l t => printCmp l ++ '>' :: '=' :: printTerm t
  | .lec l t => printCmp l ++ '<' :: '=' :: printTerm t
/-- Concrete syntax of an additive chain. -/
def printTerm : TermE → List Char
  | .one f => printFac f
  | .add l f => printTerm l ++ '+' :: printFac f
  | .sub l f => printTerm l ++ '-' :: printFac f
/-- Concrete syntax of a multiplicative chain. -/
def printFac : FacE → List Char
  | .one u => printUn u
  | .mul l u => printFac l ++ '*' :: printUn u
  | .div l u => printFac l ++ '/' :: printUn u
  | .mod l u => printFac l ++ '%' :: printUn u
/-- Concrete syntax of unary operators. -/
def printUn : UnE → List Char
  | .prim p => printPrim p
  | .pos u => '+' :: printUn u
  | .neg u => '-' :: printUn u
  | .lnot u => '!' :: printUn u
/-- Concrete syntax of a primary. -/
def printPrim : PrimE → List Char
  | .num n => natToChars n
  | .paren e => '(' :: (printOr e ++ [')'])
end

mutual
/-- Fuel needed by `parseGo` at tag `.lor` on the printed tree. -/
def costOr : OrE → Nat
  | .one a => costAnd a + 2
  | .orr l a => costOr l + costAnd a + 1
/-- Fuel needed at tag `.land`. -/
def costAnd : AndE → Nat
  | .one e => costEq e + 2
  | .andd l e => costAnd l + costEq e + 1
/-- Fuel needed at tag `.eq`. -/
def costEq : EqE → Nat
  | .one c => costCmp c + 2
  | .eqq l c => costEq l + costCmp c + 1
  | .neq l c => costEq l + costCmp c + 1
/-- Fuel needed at tag `.cmp`. -/
def costCmp : CmpE → Nat
  | .one t => costTerm t + 2
  | .gtc l t => costCmp l + costTerm t + 1
  | .ltc l t => costCmp l + costTerm t + 1
  | .gec l t => costCmp l + costTerm t + 1
  | .lec l t => costCmp l + costTerm t + 1
/-- Fuel needed at tag `.term`. -/
def costTerm : TermE → Nat
  | .one f => costFac f + 2
  | .add l f => costTerm l + costFac f + 1
  | .sub l f => costTerm l + costFac f + 1
/-- Fuel needed at tag `.factor`. -/
def costFac : FacE → Nat
  | .one u => costUn u + 2
  | .mul l u => costFac l + costUn u + 1
  | .div l u => costFac l + costUn u + 1
  | .mod l u => costFac l + costUn u + 1
/-- Fuel needed at tag `.unary`. -/
def costUn : UnE → Nat
  | .prim p => costPrim p + 1
  | .pos u => costUn u + 1
  | .neg u => costUn u + 1
  | .lnot u => costUn u + 1
/-- Fuel needed at tag `.primary`. -/
def costPrim : PrimE → Nat
  | .num _ => 1
  | .paren e => costOr e + 2
end

/-! Chain decompositions: every tree at a binary tier is a head at the next
tier followed by a list of (operator, operand) steps, matching the
accumulator loop of the parser. -/

/-- Operators of the comparison tier. -/
inductive CmpOp where
  | gtO | ltO | geO | leO

/-- Operators of the equality tier. -/
inductive EqOp where
  | eqO | neO

/-- Operators of the additive tier. -/
inductive TermOp where
  | addO | subO

/-- Operators of the multiplicative tier. -/
inductive FacOp where
  | mulO | divO | modO

def orHead : OrE → AndE
  | .one a => a
  | .orr l _ => orHead l

def orTail : OrE → List AndE
  | .one _ => []
  | .orr l a => orTail l ++ [a]

def andHead : AndE → EqE
  | .one e => e
  | .andd l _ => andHead l

def andTail : AndE → List EqE
  | .one _ => []
  | .andd l e => andTail l ++ [e]

def eqHead : EqE → CmpE
  | .one c => c
  | .eqq l _ => eqHead l
  | .neq l _ => eqHead l

def eqTail : EqE → List (EqOp × CmpE)
  | .one _ => []
  | .eqq l c => eqTail l ++ [(.eqO, c)]
  | .neq l c => eqTail l ++ [(.neO, c)]

def cmpHead : CmpE → TermE
  | .one t => t
  | .gtc l _ => cmpHead l
  | .ltc l _ => cmpHead l
  | .gec l _ => cmpHead l
  | .lec l _ => cmpHead l

def cmpTail : CmpE → List (CmpOp × TermE)
  | .one _ => []
  | .gtc l t => cmpTail l ++ [(.gtO, t)]
  | .ltc l t => cmpTail l ++ [(.ltO, t)]
  | .gec l t => cmpTail l ++ [(.geO, t)]
  | .lec l t => cmpTail l ++ [(.leO, t)]

def termHead : TermE → FacE
  | .one f => f
  | .add l _ => termHead l
  | .sub l _ => termHead l

def termTail : TermE → List (TermOp × FacE)
  | .one _ => []
  | .add l f => termTail l ++ [(.addO, f)]
  | .sub l f => termTail l ++ [(.subO, f)]

def facHead : FacE → UnE
  | .one u => u
  | .mul l _ => facHead l
  | .div l _ => facHead l
  | .mod l _ => facHead l

def facTail : FacE → List (FacOp × UnE)
  | .one _ => []
  | .mul l u => facTail l ++ [(.mulO, u)]
  | .div l u => facTail l ++ [(.divO, u)]
  | .mod l u => facTail l ++ [(.modO, u)]

/-! Printed form, accumulated value and fuel of a chain tail. -/

def printOrOps : List AndE → List Char
  | [] => []
  | a :: as => '|' :: '|' :: printAnd a ++ printOrOps as

def printAndOps : List EqE → List Char
  | [] => []
  | e :: es => '&' :: '&' :: printEq e ++ printAndOps es

def printEqOps : List (EqOp × CmpE) → List Char
  | [] => []
  | (.eqO, c) :: r => '=' :: '=' :: printCmp c ++ printEqOps r
  | (.neO, c) :: r => '!' :: '=' :: printCmp c ++ printEqOps r

def printCmpOps : List (CmpOp × TermE) → List Char
  | [] => []
  | (.gtO, t) :: r => '>' :: printTerm t ++ printCmpOps r
  | (.ltO, t) :: r => '<' :: printTerm t ++ printCmpOps r
  | (.geO, t) :: r => '>' :: '=' :: printTerm t ++ printCmpOps r
  | (.leO, t) :: r => '<' :: '=' :: printTerm t ++ printCmpOps r

def printTermOps : List (TermOp × FacE) → List Char
  | [] => []
  | (.addO, f) :: r => '+' :: printFac f ++ printTermOps r
  | (.subO, f) :: r => '-' :: printFac f ++ printTermOps r

def printFacOps : List (FacOp × UnE) → List Char
  | [] => []
  | (.mulO, u) :: r => '*' :: printUn u ++ printFacOps r
  | (.divO, u) :: r => '/' :: printUn u ++ printFacOps r
  | (.modO, u) :: r => '%' :: printUn u ++ printFacOps r

def stepOr (v : ℚ) (a : AndE) : ℚ :=
  if qtruthy v || qtruthy (denoteAnd a) then 1 else 0

def stepAnd (v : ℚ) (e : EqE) : ℚ :=
  if qtruthy v && qtruthy (denoteEq e) then 1 else 0

def stepEq (v : ℚ) : EqOp × CmpE → ℚ
  | (.eqO, c) => if v = denoteCmp c then 1 else 0
  | (.neO, c) => if v ≠ denoteCmp c then 1 else 0

def stepCmp (v : ℚ) : CmpOp × TermE → ℚ
  | (.gtO, t) => if denoteTerm t < v then 1 else 0
  | (.ltO, t) => if v < denoteTerm t then 1 else 0
  | (.geO, t) => if denoteTerm t ≤ v then 1 else 0
  | (.leO, t) => if v ≤ denoteTerm t then 1 else 0

def stepTerm (v : ℚ) : TermOp × FacE → ℚ
  | (.addO, f) => v + denoteFac f
  | (.subO, f) => v - denoteFac f

def stepFac (v : ℚ) : FacOp × UnE → ℚ
  | (.mulO, u) => v * denoteUn u
  | (.divO, u) => v / denoteUn u
  | (.modO, u) => cfmod v (denoteUn u)

def costOrOps : List AndE → Nat
  | [] => 1
  | a :: as => costAnd a + costOrOps as + 1

def costAndOps : List EqE → Nat
  | [] => 1
  | e :: es => costEq e + costAndOps es + 1

def costEqOps : List (EqOp × CmpE) → Nat
  | [] => 1
  | (_, c) :: r => costCmp c + costEqOps r + 1

def costCmpOps : List (CmpOp × TermE) → Nat
  | [] => 1
  | (_, t) :: r => costTerm t + costCmpOps r + 1

def costTermOps : List (TermOp × FacE) → Nat
  | [] => 1
  | (_, f) :: r => costFac f + costTermOps r + 1

def costFacOps : List (FacOp × UnE) → Nat
  | [] => 1
  | (_, u) :: r => costUn u + costFacOps r + 1

/-! Follow sets: the conditions on the input remaining after a printed tree
under which each parser tier stops exactly there.  `FollowNum` additionally
keeps the numeral scanner from consuming into the rest. -/

/-- The rest does not extend a numeral scan. -/
def FollowNum (rest : List Char) : Prop :=
  match rest with
  | [] => True
  | c :: _ => cIsDigit c = false ∧ c ≠ '.' ∧ c ≠ 'e' ∧ c ≠ 'E' ∧ cIsSpace c = false

/-- The rest does not continue a multiplicative chain. -/
def FollowFac (rest : List Char) : Prop :=
  FollowNum rest ∧ matchChar '*' rest = none ∧ matchChar '/' rest = none ∧
    matchChar '%' rest = none

/-- The rest does not continue an additive chain. -/
def FollowTerm (rest : List Char) : Prop :=
  FollowFac rest ∧ matchChar '+' rest = none ∧ matchChar '-' rest = none

/-- The rest does not continue a comparison chain. -/
def FollowCmp (rest : List Char) : Prop :=
  FollowTerm rest ∧ matchStr ['>', '='] rest = none ∧ matchStr ['<', '='] rest = none ∧
    matchChar '>' rest = none ∧ matchChar '<' rest = none

/-- The rest does not continue an equality chain. -/
def FollowEq (rest : List Char) : Prop :=
  FollowCmp rest ∧ matchStr ['=', '='] rest = none ∧ matchStr ['!', '='] rest = none

/-- The rest does not continue an `&&` chain. -/
def FollowAnd (rest : List Char) : Prop :=
  FollowEq rest ∧ matchStr ['&', '&'] rest = none

/-- The rest does not continue an `||` chain. -/
def FollowOr (rest : List Char) : Prop :=
  FollowAnd rest ∧ matchStr ['|', '|'] rest = none

/-- Whether the outermost operation of an expression tree is a comparison,
equality test, logical connective or logical negation. -/
def boolHeaded (e : OrE) : Bool :=
  match e with
  | .orr _ _ => true
  | .one a =>
    match a with
    | .andd _ _ => true
    | .one q =>
      match q with
      | .eqq _ _ => true
      | .neq _ _ => true
      | .one c =>
        match c with
        | .gtc _ _ => true
        | .ltc _ _ => true
        | .gec _ _ => true
        | .lec _ _ => true
        | .one t =>
          match t with
          | .add _ _ => false
          | .sub _ _ => false
          | .one f =>
            match f with
            | .mul _ _ => false
            | .div _ _ => false
            | .mod _ _ => false
            | .one u =>
              match u with
              | .lnot _ => true
              | _ => false

/-! ## Lemmas -/

/-! ### Decimal numerals -/

theorem digitVal_digitCh {d : Nat} (h : d < 10) : digitVal (digitCh d) = d := by
  interval_cases d <;> rfl

theorem cIsDigit_digitCh (d : Nat) : cIsDigit (digitCh d) = true := by
  unfold digitCh
  split <;> rfl

theorem charsToNatAux_append (a : Nat) (l r : List Char) :
    charsToNatAux a (l ++ r) = charsToNatAux (charsToNatAux a l) r := by
  simp [charsToNatAux, List.foldl_append]

theorem natToCharsF_ne_nil (f n : Nat) : natToCharsF (f + 1) n ≠ [] := by
  rw [natToCharsF]
  split
  · simp
  · simp

theorem natToCharsF_digits {f n : Nat} (h : n ≤ f) :
    ∀ c ∈ natToCharsF (f + 1) n, cIsDigit c = true := by
  induction f generalizing n with
  | zero =>
    intro c hc
    rw [natToCharsF] at hc
    have hn : n = 0 := Nat.le_zero.mp h
    subst hn
    simp at hc
    subst hc
    rfl
  | succ f ih =>
    intro c hc
    rw [natToCharsF] at hc
    by_cases hlt : n < 10
    · simp [hlt] at hc
      subst hc
      exact cIsDigit_digitCh n
    · simp [hlt] at hc
      rcases hc with hc | hc
      · exact ih (by omega) c hc
      · subst hc
        exact cIsDigit_digitCh (n % 10)

theorem csAux_natToCharsF {f n : Nat} (h : n ≤ f) (a : Nat) :
    charsToNatAux a (natToCharsF (f + 1) n) =
      a * 10 ^ (natToCharsF (f + 1) n).length + n := by
  induction f generalizing n a with
  | zero =>
    have hn : n = 0 := Nat.le_zero.mp h
    subst hn
    rfl
  | succ f ih =>
    rw [natToCharsF]
    by_cases hlt : n < 10
    · simp only [hlt, if_true]
      simp [charsToNatAux, digitVal_digitCh hlt]
    · simp only [hlt, if_false]
      rw [charsToNatAux_append, ih (by omega), List.length_append]
      simp [charsToNatAux, digitVal_digitCh (Nat.mod_lt n (by omega)), pow_succ]
      ring_nf
      omega

theorem charsToNat_natToChars (n : Nat) : charsToNat (natToChars n) = n := by
  have := @csAux_natToCharsF n n (Nat.le_refl n) 0
  simpa [charsToNat, natToChars] using this

theorem natToChars_ne_nil (n : Nat) : natToChars n ≠ [] :=
  natToCharsF_ne_nil n n

theorem natToChars_digits (n : Nat) : ∀ c ∈ natToChars n, cIsDigit c = true :=
  natToCharsF_digits (Nat.le_refl n)

/-- A digit character differs from any character whose code is outside
`[48, 57]`. -/
theorem ne_of_digit {c d : Char} (h : cIsDigit c = true)
    (hd : d.toNat < 48 ∨ 57 < d.toNat) : c ≠ d := by
  intro he
  subst he
  simp only [cIsDigit, Bool.and_eq_true, decide_eq_true_eq] at h
  omega

/-- Digit characters are not whitespace. -/
theorem digit_not_space {c : Char} (h : cIsDigit c = true) : cIsSpace c = false := by
  simp only [cIsDigit, Bool.and_eq_true, decide_eq_true_eq] at h
  simp only [cIsSpace, Bool.or_eq_false_iff, Bool.and_eq_false_iff,
    decide_eq_false_iff_not]
  omega

/-- Digit characters are not alphabetic. -/
theorem digit_not_alpha {c : Char} (h : cIsDigit c = true) : cIsAlpha c = false := by
  simp only [cIsDigit, Bool.and_eq_true, decide_eq_true_eq] at h
  simp only [cIsAlpha, Bool.or_eq_false_iff, Bool.and_eq_false_iff,
    decide_eq_false_iff_not]
  omega

/-! ### Scanning primitives -/

theorem takeWhile_append_all {p : Char → Bool} {a : List Char}
    (h : ∀ c ∈ a, p c = true) (b : List Char) :
    (a ++ b).takeWhile p = a ++ b.takeWhile p := by
  induction a with
  | nil => simp
  | cons c r ih =>
    simp [List.cons_append, List.takeWhile_cons, h c (by simp),
      ih fun d hd => h d (by simp [hd])]

theorem dropWhile_append_all {p : Char → Bool} {a : List Char}
    (h : ∀ c ∈ a, p c = true) (b : List Char) :
    (a ++ b).dropWhile p = b.dropWhile p := by
  induction a with
  | nil => simp
  | cons c r ih =>
    simp only [List.cons_append, List.dropWhile_cons, h c (by simp), if_true,
      ih fun d hd => h d (by simp [hd])]

theorem skipWs_cons {c : Char} (h : cIsSpace c = false) (xs : List Char) :
    skipWs (c :: xs) = c :: xs := by
  simp [skipWs, List.dropWhile_cons, h]

theorem matchChar_cons_self {c : Char} (h : cIsSpace c = false) (xs : List Char) :
    matchChar c (c :: xs) = some xs := by
  simp [matchChar, skipWs_cons h]

theorem matchChar_cons_ne {c d : Char} (hs : cIsSpace d = false) (hne : d ≠ c)
    (xs : List Char) : matchChar c (d :: xs) = none := by
  simp [matchChar, skipWs_cons hs, hne]

theorem matchChar_nil (c : Char) : matchChar c [] = none := by
  simp [matchChar, skipWs]

theorem matchStr2_cons_self {a b : Char} (hs : cIsSpace a = false) (xs : List Char) :
    matchStr [a, b] (a :: b :: xs) = some xs := by
  simp [matchStr, skipWs_cons hs, listStarts]

theorem matchStr2_cons_ne {a b d : Char} (hs : cIsSpace d = false) (hne : d ≠ a)
    (xs : List Char) : matchStr [a, b] (d :: xs) = none := by
  simp [matchStr, skipWs_cons hs, listStarts, Ne.symm hne]

theorem matchStr2_nil (a b : Char) : matchStr [a, b] [] = none := by
  simp [matchStr, skipWs, listStarts]

/-! ### `parseNumber` -/

theorem takeWhile_digits {ds rest : List Char} (hds : ∀ c ∈ ds, cIsDigit c = true)
    (hr : ∀ c, rest.head? = some c → cIsDigit c = false) :
    (ds ++ rest).takeWhile cIsDigit = ds := by
  rw [takeWhile_append_all hds]
  cases rest with
  | nil => simp
  | cons c r => simp [List.takeWhile_cons, hr c rfl]

theorem dropWhile_digits {ds rest : List Char} (hds : ∀ c ∈ ds, cIsDigit c = true)
    (hr : ∀ c, rest.head? = some c → cIsDigit c = false) :
    (ds ++ rest).dropWhile cIsDigit = rest := by
  rw [dropWhile_append_all hds]
  cases rest with
  | nil => simp
  | cons c r => simp [List.dropWhile_cons, hr c rfl]

theorem headIs_nil (p : Char → Bool) : headIs p [] = false := rfl

theorem headIs_cons (p : Char → Bool) (c : Char) (xs : List Char) :
    headIs p (c :: xs) = p c := rfl

/-- `parseNumber` on a plain decimal numeral followed by input that cannot
extend the scan: the numeral's value is returned and nothing else consumed. -/
theorem parseNumber_natToChars (et : String) (n : Nat) {rest : List Char}
    (hr : FollowNum rest) :
    parseNumber et (natToChars n ++ rest) = .ok ((n : ℚ), rest) := by
  obtain ⟨d, ds, hdc⟩ : ∃ d ds, natToChars n = d :: ds := by
    cases hnc : natToChars n with
    | nil => exact absurd hnc (natToChars_ne_nil n)
    | cons d ds => exact ⟨d, ds, rfl⟩
  have hdigs := natToChars_digits n
  have hd : cIsDigit d = true := hdigs d (by rw [hdc]; simp)
  have hrh : ∀ c, rest.head? = some c → cIsDigit c = false := by
    intro c hc
    cases rest with
    | nil => simp at hc
    | cons x r =>
      simp at hc
      subst hc
      exact hr.1
  have happ : natToChars n ++ rest = d :: (ds ++ rest) := by rw [hdc]; simp
  rw [happ]
  have hsk : skipWs (d :: (ds ++ rest)) = d :: (ds ++ rest) :=
    skipWs_cons (digit_not_space hd) _
  have htk : (d :: (ds ++ rest)).takeWhile cIsDigit = d :: ds := by
    have := @takeWhile_digits (d :: ds) rest
      (by rw [← hdc]; exact hdigs) hrh
    simpa using this
  have hdk : (d :: (ds ++ rest)).dropWhile cIsDigit = rest := by
    have := @dropWhile_digits (d :: ds) rest
      (by rw [← hdc]; exact hdigs) hrh
    simpa using this
  have hdne : d ≠ '.' := ne_of_digit hd (by decide)
  have hdot : headIs (fun c => decide (c = '.')) rest = false := by
    cases rest with
    | nil => rfl
    | cons x r =>
      rw [headIs_cons]
      simp [hr.2.1]
  have hee : headIs (fun c => c = 'e' || c = 'E') rest = false := by
    cases rest with
    | nil => rfl
    | cons x r =>
      rw [headIs_cons]
      simp [hr.2.2.1, hr.2.2.2.1]
  simp only [parseNumber, hsk, headIs_cons, hd, hdne, htk, hdk, hdot, hee,
    decide_eq_true_eq, Bool.true_or, decide_eq_false hdne, Bool.false_eq_true,
    if_false, if_true, Bool.and_eq_true, List.isEmpty_cons, Bool.false_and,
    Bool.and_false, Bool.false_or, Bool.or_self]
  have hval : ((charsToNat (d :: ds) : ℚ) + fracVal []) * tenPowZ 0 = (n : ℚ) := by
    have hcn : charsToNat (d :: ds) = n := by rw [← hdc]; exact charsToNat_natToChars n
    rw [hcn]
    simp [fracVal, charsToNat, charsToNatAux, tenPowZ]
  rw [hval]

/-- `parseNumber` on digits followed by an exponent marker (with optional
sign) that no digit follows: the marker and sign are not consumed — the
scan rolls back to the marker position and only the digits before it form
the literal. -/
theorem parseNumber_expRollback (et : String) {ds : List Char} (hne : ds ≠ [])
    (hds : ∀ c ∈ ds, cIsDigit c = true) {m : Char} (hm : m = 'e' ∨ m = 'E')
    {sgn rest : List Char}
    (hsgn : sgn = [] ∨ sgn = ['+'] ∨ sgn = ['-'])
    (hrest : ∀ c, rest.head? = some c → cIsDigit c = false)
    (hplus : sgn = [] → ∀ c, rest.head? = some c → c ≠ '+' ∧ c ≠ '-') :
    parseNumber et (ds ++ m :: (sgn ++ rest)) =
      .ok ((charsToNat ds : ℚ), m :: (sgn ++ rest)) := by
  obtain ⟨d, ds', hdc⟩ : ∃ d ds', ds = d :: ds' := by
    cases ds with
    | nil => exact absurd rfl hne
    | cons d r => exact ⟨d, r, rfl⟩
  subst hdc
  have hd : cIsDigit d = true := hds d (by simp)
  have hmd : cIsDigit m = false := by
    rcases hm with h | h <;> (subst h; rfl)
  have hmdot : m ≠ '.' := by
    rcases hm with h | h <;> (subst h; decide)
  have hmee : (m = 'e' || m = 'E') = true := by
    rcases hm with h | h <;> simp [h]
  have happ : (d :: ds') ++ m :: (sgn ++ rest) = d :: (ds' ++ (m :: (sgn ++ rest))) := by simp
  rw [happ]
  have hsk : skipWs (d :: (ds' ++ (m :: (sgn ++ rest)))) = d :: (ds' ++ (m :: (sgn ++ rest))) :=
    skipWs_cons (digit_not_space hd) _
  have hmh : ∀ c, (m :: (sgn ++ rest)).head? = some c → cIsDigit c = false := by
    intro c hc
    simp at hc
    subst hc
    exact hmd
  have htk : (d :: (ds' ++ (m :: (sgn ++ rest)))).takeWhile cIsDigit = d :: ds' := by
    have := @takeWhile_digits (d :: ds') (m :: (sgn ++ rest)) hds hmh
    simpa using this
  have hdk : (d :: (ds' ++ (m :: (sgn ++ rest)))).dropWhile cIsDigit = m :: (sgn ++ rest) := by
    have := @dropWhile_digits (d :: ds') (m :: (sgn ++ rest)) hds hmh
    simpa using this
  have hdne : d ≠ '.' := ne_of_digit hd (by decide)
  have hedNil : ∀ {r : List Char}, (∀ c, r.head? = some c → cIsDigit c = false) →
      r.takeWhile cIsDigit = [] := by
    intro r h
    cases r with
    | nil => rfl
    | cons x t => simp [List.takeWhile_cons, h x rfl]
  simp only [parseNumber, hsk, headIs_cons, hd, htk, hdk, decide_eq_true_eq,
    Bool.true_or, decide_eq_false hdne, Bool.false_eq_true, if_false, if_true,
    decide_eq_false hmdot, hmee, List.tail_cons]
  have hval : ((charsToNat (d :: ds') : ℚ) + fracVal []) * tenPowZ 0 =
      (charsToNat (d :: ds') : ℚ) := by
    simp [fracVal, charsToNat, charsToNatAux, tenPowZ]
  rcases hsgn with h | h | h
  · subst h
    have hpm : headIs (fun c => c = '+' || c = '-') rest = false := by
      cases rest with
      | nil => rfl
      | cons x t =>
        rw [headIs_cons]
        have := hplus rfl x rfl
        simp [this.1, this.2]
    have hmn : headIs (fun c => decide (c = '-')) rest = false := by
      cases rest with
      | nil => rfl
      | cons x t =>
        rw [headIs_cons]
        simp [(hplus rfl x rfl).2]
    simp only [List.nil_append, hpm, hmn, Bool.false_eq_true, if_false,
      hedNil hrest, List.isEmpty_nil, Bool.not_true, Bool.and_false,
      List.isEmpty_cons, Bool.false_and, Bool.and_self]
    rw [hval]
  · subst h
    simp only [List.cons_append, List.nil_append, headIs_cons, List.tail_cons]
    simp only [show (decide True || decide ('+' = '-')) = true from by decide,
      if_true, hedNil hrest, List.isEmpty_nil, Bool.not_true, Bool.and_false,
      Bool.false_eq_true, if_false, List.isEmpty_cons, Bool.false_and]
    rw [hval]
  · subst h
    simp only [List.cons_append, List.nil_append, headIs_cons, List.tail_cons]
    simp only [show (decide ('-' = '+') || decide True) = true from by decide,
      if_true, hedNil hrest, List.isEmpty_nil, Bool.not_true, Bool.and_false,
      Bool.false_eq_true, if_false, List.isEmpty_cons, Bool.false_and]
    rw [hval]

/-! ### One-step unfoldings of `parseGo` -/

theorem peekc_cons {c : Char} (h : cIsSpace c = false) (xs : List Char) :
    peekc (c :: xs) = c := by
  simp [peekc, skipWs_cons h]

section Unfold

variable (Γ : VarMap) (et : String) (f : Nat) (xs : List Char)

theorem parseGo_expr : parseGo Γ et .expr (f + 1) xs = parseGo Γ et .lor f xs := rfl

theorem parseGo_lor : parseGo Γ et .lor (f + 1) xs =
    match parseGo Γ et .land f xs with
    | .error e => .error e
    | .ok (v, r) => parseGo Γ et (.lorLoop v) f r := rfl

theorem parseGo_lorLoop (v : ℚ) : parseGo Γ et (.lorLoop v) (f + 1) xs =
    match matchStr ['|', '|'] xs with
    | some r =>
      match parseGo Γ et .land f r with
      | .error e => .error e
      | .ok (rv, r2) =>
        parseGo Γ et (.lorLoop (if qtruthy v || qtruthy rv then 1 else 0)) f r2
    | none => .ok (v, xs) := rfl

theorem parseGo_land : parseGo Γ et .land (f + 1) xs =
    match parseGo Γ et .eq f xs with
    | .error e => .error e
    | .ok (v, r) => parseGo Γ et (.landLoop v) f r := rfl

theorem parseGo_landLoop (v : ℚ) : parseGo Γ et (.landLoop v) (f + 1) xs =
    match matchStr ['&', '&'] xs with
    | some r =>
      match parseGo Γ et .eq f r with
      | .error e => .error e
      | .ok (rv, r2) =>
        parseGo Γ et (.landLoop (if qtruthy v && qtruthy rv then 1 else 0)) f r2
    | none => .ok (v, xs) := rfl

theorem parseGo_eq : parseGo Γ et .eq (f + 1) xs =
    match parseGo Γ et .cmp f xs with
    | .error e => .error e
    | .ok (v, r) => parseGo Γ et (.eqLoop v) f r := rfl

theorem parseGo_eqLoop (v : ℚ) : parseGo Γ et (.eqLoop v) (f + 1) xs =
    match matchStr ['=', '='] xs with
    | some r =>
      match parseGo Γ et .cmp f r with
      | .error e => .error e
      | .ok (rv, r2) => parseGo Γ et (.eqLoop (if v = rv then 1 else 0)) f r2
    | none =>
      match matchStr ['!', '='] xs with
      | some r =>
        match parseGo Γ et .cmp f r with
        | .error e => .error e
        | .ok (rv, r2) => parseGo Γ et (.eqLoop (if v ≠ rv then 1 else 0)) f r2
      | none => .ok (v, xs) := rfl

theorem parseGo_cmp : parseGo Γ et .cmp (f + 1) xs =
    match parseGo Γ et .term f xs with
    | .error e => .error e
    | .ok (v, r) => parseGo Γ et (.cmpLoop v) f r := rfl

theorem parseGo_cmpLoop (v : ℚ) : parseGo Γ et (.cmpLoop v) (f + 1) xs =
    match matchStr ['>', '='] xs with
    | some r =>
      match parseGo Γ et .term f r with
      | .error e => .error e
      | .ok (rv, r2) => parseGo Γ et (.cmpLoop (if rv ≤ v then 1 else 0)) f r2
    | none =>
      match matchStr ['<', '='] xs with
      | some r =>
        match parseGo Γ et .term f r with
        | .error e => .error e
        | .ok (rv, r2) => parseGo Γ et (.cmpLoop (if v ≤ rv then 1 else 0)) f r2
      | none =>
        match matchChar '>' xs with
        | some r =>
          match parseGo Γ et .term f r with
          | .error e => .error e
          | .ok (rv, r2) => parseGo Γ et (.cmpLoop (if rv < v then 1 else 0)) f r2
        | none =>
          match matchChar '<' xs with
          | some r =>
            match parseGo Γ et .term f r with
            | .error e => .error e
            | .ok (rv, r2) => parseGo Γ et (.cmpLoop (if v < rv then 1 else 0)) f r2
          | none => .ok (v, xs) := rfl

theorem parseGo_term : parseGo Γ et .term (f + 1) xs =
    match parseGo Γ et .factor f xs with
    | .error e => .error e
    | .ok (v, r) => parseGo Γ et (.termLoop v) f r := rfl

theorem parseGo_termLoop (v : ℚ) : parseGo Γ et (.termLoop v) (f + 1) xs =
    match matchChar '+' xs with
    | some r =>
      match parseGo Γ et .factor f r with
      | .error e => .error e
      | .ok (rv, r2) => parseGo Γ et (.termLoop (v + rv)) f r2
    | none =>
      match matchChar '-' xs with
      | some r =>
        match parseGo Γ et .factor f r with
        | .error e => .error e
        | .ok (rv, r2) => parseGo Γ et (.termLoop (v - rv)) f r2
      | none => .ok (v, xs) := rfl

theorem parseGo_factor : parseGo Γ et .factor (f + 1) xs =
    match parseGo Γ et .unary f xs with
    | .error e => .error e
    | .ok (v, r) => parseGo Γ et (.factorLoop v) f r := rfl

theorem parseGo_factorLoop (v : ℚ) : parseGo Γ et (.factorLoop v) (f + 1) xs =
    match matchChar '*' xs with
    | some r =>
      match parseGo Γ et .unary f r with
      | .error e => .error e
      | .ok (rv, r2) => parseGo Γ et (.factorLoop (v * rv)) f r2
    | none =>
      match matchChar '/' xs with
      | some r =>
        match parseGo Γ et .unary f r with
        | .error e => .error e
        | .ok (rv, r2) => parseGo Γ et (.factorLoop (v / rv)) f r2
      | none =>
        match matchChar '%' xs with
        | some r =>
          match parseGo Γ et .unary f r with
          | .error e => .error e
          | .ok (rv, r2) => parseGo Γ et (.factorLoop (cfmod v rv)) f r2
        | none => .ok (v, xs) := rfl

theorem parseGo_unary : parseGo Γ et .unary (f + 1) xs =
    match matchChar '+' xs with
    | some r => parseGo Γ et .unary f r
    | none =>
      match matchChar '-' xs with
      | some r =>
        match parseGo Γ et .unary f r with
        | .error e => .error e
        | .ok (v, r2) => .ok (-v, r2)
      | none =>
        match matchChar '!' xs with
        | some r =>
          match parseGo Γ et .unary f r with
          | .error e => .error e
          | .ok (v, r2) => .ok (if qtruthy v then (0 : ℚ) else 1, r2)
        | none => parseGo Γ et .primary f xs := rfl

theorem parseGo_primary : parseGo Γ et .primary (f + 1) xs =
    match matchChar '(' xs with
    | some r =>
      match parseGo Γ et .expr f r with
      | .error e => .error e
      | .ok (v, r2) =>
        match matchChar ')' r2 with
        | some r3 => .ok (v, r3)
        | none => .error (failMsg et "Expected \x27)\x27" (skipWs r2))
    | none =>
      let ys := skipWs xs
      if cIsAlpha (peekc ys) || peekc ys = '_' then
        let idRes := parseIdentifier ys
        match matchChar '(' idRes.2 with
        | some r2 => parseGo Γ et (.argsStart idRes.1) f r2
        | none =>
          match vlookup Γ idRes.1 with
          | some v => .ok (v, idRes.2)
          | none =>
            .error (failMsg et ("Unknown variable: " ++ idRes.1) (skipWs idRes.2))
      else if cIsDigit (peekc ys) || peekc ys = '.' then
        parseNumber et ys
      else .error (failMsg et "Expected primary expression" ys) := rfl

end Unfold

/-! ### Follow sets -/

theorem followNum_nil : FollowNum [] := trivial

theorem followNum_char {d : Char} {xs : List Char} (hs : cIsSpace d = false)
    (hdig : cIsDigit d = false) (h1 : d ≠ '.') (h2 : d ≠ 'e') (h3 : d ≠ 'E') :
    FollowNum (d :: xs) := ⟨hdig, h1, h2, h3, hs⟩

theorem followFac_nil : FollowFac [] :=
  ⟨followNum_nil, matchChar_nil _, matchChar_nil _, matchChar_nil _⟩

theorem followFac_char {d : Char} {xs : List Char} (hs : cIsSpace d = false)
    (hdig : cIsDigit d = false) (h1 : d ≠ '.') (h2 : d ≠ 'e') (h3 : d ≠ 'E')
    (h4 : d ≠ '*') (h5 : d ≠ '/') (h6 : d ≠ '%') : FollowFac (d :: xs) :=
  ⟨followNum_char hs hdig h1 h2 h3, matchChar_cons_ne hs h4 xs,
    matchChar_cons_ne hs h5 xs, matchChar_cons_ne hs h6 xs⟩

theorem followTerm_nil : FollowTerm [] :=
  ⟨followFac_nil, matchChar_nil _, matchChar_nil _⟩

theorem followTerm_char {d : Char} {xs : List Char} (hs : cIsSpace d = false)
    (hdig : cIsDigit d = false) (h1 : d ≠ '.') (h2 : d ≠ 'e') (h3 : d ≠ 'E')
    (h4 : d ≠ '*') (h5 : d ≠ '/') (h6 : d ≠ '%') (h7 : d ≠ '+') (h8 : d ≠ '-') :
    FollowTerm (d :: xs) :=
  ⟨followFac_char hs hdig h1 h2 h3 h4 h5 h6, matchChar_cons_ne hs h7 xs,
    matchChar_cons_ne hs h8 xs⟩

theorem followCmp_nil : FollowCmp [] :=
  ⟨followTerm_nil, matchStr2_nil _ _, matchStr2_nil _ _, matchChar_nil _, matchChar_nil _⟩

theorem followCmp_char {d : Char} {xs : List Char} (hs : cIsSpace d = false)
    (hdig : cIsDigit d = false) (h1 : d ≠ '.') (h2 : d ≠ 'e') (h3 : d ≠ 'E')
    (h4 : d ≠ '*') (h5 : d ≠ '/') (h6 : d ≠ '%') (h7 : d ≠ '+') (h8 : d ≠ '-')
    (h9 : d ≠ '>') (h10 : d ≠ '<') : FollowCmp (d :: xs) :=
  ⟨followTerm_char hs hdig h1 h2 h3 h4 h5 h6 h7 h8, matchStr2_cons_ne hs h9 xs,
    matchStr2_cons_ne hs h10 xs, matchChar_cons_ne hs h9 xs, matchChar_cons_ne hs h10 xs⟩

theorem followEq_nil : FollowEq [] :=
  ⟨followCmp_nil, matchStr2_nil _ _, matchStr2_nil _ _⟩

theorem followEq_char {d : Char} {xs : List Char} (hs : cIsSpace d = false)
    (hdig : cIsDigit d = false) (h1 : d ≠ '.') (h2 : d ≠ 'e') (h3 : d ≠ 'E')
    (h4 : d ≠ '*') (h5 : d ≠ '/') (h6 : d ≠ '%') (h7 : d ≠ '+') (h8 : d ≠ '-')
    (h9 : d ≠ '>') (h10 : d ≠ '<') (h11 : d ≠ '=') (h12 : d ≠ '!') :
    FollowEq (d :: xs) :=
  ⟨followCmp_char hs hdig h1 h2 h3 h4 h5 h6 h7 h8 h9 h10, matchStr2_cons_ne hs h11 xs,
    matchStr2_cons_ne hs h12 xs⟩

theorem followAnd_nil : FollowAnd [] := ⟨followEq_nil, matchStr2_nil _ _⟩

theorem followAnd_char {d : Char} {xs : List Char} (hs : cIsSpace d = false)
    (hdig : cIsDigit d = false) (h1 : d ≠ '.') (h2 : d ≠ 'e') (h3 : d ≠ 'E')
    (h4 : d ≠ '*') (h5 : d ≠ '/') (h6 : d ≠ '%') (h7 : d ≠ '+') (h8 : d ≠ '-')
    (h9 : d ≠ '>') (h10 : d ≠ '<') (h11 : d ≠ '=') (h12 : d ≠ '!') (h13 : d ≠ '&') :
    FollowAnd (d :: xs) :=
  ⟨followEq_char hs hdig h1 h2 h3 h4 h5 h6 h7 h8 h9 h10 h11 h12,
    matchStr2_cons_ne hs h13 xs⟩

theorem followOr_nil : FollowOr [] := ⟨followAnd_nil, matchStr2_nil _ _⟩

theorem followOr_char {d : Char} {xs : List Char} (hs : cIsSpace d = false)
    (hdig : cIsDigit d = false) (h1 : d ≠ '.') (h2 : d ≠ 'e') (h3 : d ≠ 'E')
    (h4 : d ≠ '*') (h5 : d ≠ '/') (h6 : d ≠ '%') (h7 : d ≠ '+') (h8 : d ≠ '-')
    (h9 : d ≠ '>') (h10 : d ≠ '<') (h11 : d ≠ '=') (h12 : d ≠ '!') (h13 : d ≠ '&')
    (h14 : d ≠ '|') : FollowOr (d :: xs) :=
  ⟨followAnd_char hs hdig h1 h2 h3 h4 h5 h6 h7 h8 h9 h10 h11 h12 h13,
    matchStr2_cons_ne hs h14 xs⟩

theorem followAnd_bar (xs : List Char) : FollowAnd ('|' :: xs) := by
  apply followAnd_char <;> decide

theorem followEq_amp (xs : List Char) : FollowEq ('&' :: xs) := by
  apply followEq_char <;> decide

theorem followCmp_eqCh (xs : List Char) : FollowCmp ('=' :: xs) := by
  apply followCmp_char <;> decide

theorem followCmp_bang (xs : List Char) : FollowCmp ('!' :: xs) := by
  apply followCmp_char <;> decide

theorem followTerm_gtCh (xs : List Char) : FollowTerm ('>' :: xs) := by
  apply followTerm_char <;> decide

theorem followTerm_ltCh (xs : List Char) : FollowTerm ('<' :: xs) := by
  apply followTerm_char <;> decide

theorem followFac_plus (xs : List Char) : FollowFac ('+' :: xs) := by
  apply followFac_char <;> decide

theorem followFac_minus (xs : List Char) : FollowFac ('-' :: xs) := by
  apply followFac_char <;> decide

theorem followNum_star (xs : List Char) : FollowNum ('*' :: xs) := by
  apply followNum_char <;> decide

theorem followNum_slash (xs : List Char) : FollowNum ('/' :: xs) := by
  apply followNum_char <;> decide

theorem followNum_pct (xs : List Char) : FollowNum ('%' :: xs) := by
  apply followNum_char <;> decide

theorem followOr_rparen (xs : List Char) : FollowOr (')' :: xs) := by
  apply followOr_char <;> decide

/-! ### First characters of printed trees -/

theorem printPrim_head (p : PrimE) :
    ∃ c cs, printPrim p = c :: cs ∧ (cIsDigit c = true ∨ c = '(') := by
  cases p with
  | num n =>
    obtain ⟨d, ds, hdc⟩ : ∃ d ds, natToChars n = d :: ds := by
      cases hnc : natToChars n with
      | nil => exact absurd hnc (natToChars_ne_nil n)
      | cons d ds => exact ⟨d, ds, rfl⟩
    exact ⟨d, ds, by simp [printPrim, hdc], .inl (natToChars_digits n d (by rw [hdc]; simp))⟩
  | paren e => exact ⟨'(', printOr e ++ [')'], by simp [printPrim], .inr rfl⟩

theorem printUn_head (u : UnE) :
    ∃ c cs, printUn u = c :: cs ∧
      (cIsDigit c = true ∨ c = '(' ∨ c = '+' ∨ c = '-' ∨ c = '!') := by
  cases u with
  | prim p =>
    obtain ⟨c, cs, hc, hp⟩ := printPrim_head p
    exact ⟨c, cs, by simp [printUn, hc], by tauto⟩
  | pos u => exact ⟨'+', printUn u, by simp [printUn], by tauto⟩
  | neg u => exact ⟨'-', printUn u, by simp [printUn], by tauto⟩
  | lnot u => exact ⟨'!', printUn u, by simp [printUn], by tauto⟩

theorem printFac_head (e : FacE) :
    ∃ c cs, printFac e = c :: cs ∧
      (cIsDigit c = true ∨ c = '(' ∨ c = '+' ∨ c = '-' ∨ c = '!') := by
  cases e with
  | one u =>
    obtain ⟨c, cs, hc, hp⟩ := printUn_head u
    exact ⟨c, cs, by simp [printFac, hc], hp⟩
  | mul l u =>
    obtain ⟨c, cs, hc, hp⟩ := printFac_head l
    exact ⟨c, cs ++ '*' :: printUn u, by simp [printFac, hc], hp⟩
  | div l u =>
    obtain ⟨c, cs, hc, hp⟩ := printFac_head l
    exact ⟨c, cs ++ '/' :: printUn u, by simp [printFac, hc], hp⟩
  | mod l u =>
    obtain ⟨c, cs, hc, hp⟩ := printFac_head l
    exact ⟨c, cs ++ '%' :: printUn u, by simp [printFac, hc], hp⟩

theorem printTerm_head (e : TermE) :
    ∃ c cs, printTerm e = c :: cs ∧
      (cIsDigit c = true ∨ c = '(' ∨ c = '+' ∨ c = '-' ∨ c = '!') := by
  cases e with
  | one f =>
    obtain ⟨c, cs, hc, hp⟩ := printFac_head f
    exact ⟨c, cs, by simp [printTerm, hc], hp⟩
  | add l f =>
    obtain ⟨c, cs, hc, hp⟩ := printTerm_head l
    exact ⟨c, cs ++ '+' :: printFac f, by simp [printTerm, hc], hp⟩
  | sub l f =>
    obtain ⟨c, cs, hc, hp⟩ := printTerm_head l
    exact ⟨c, cs ++ '-' :: printFac f, by simp [printTerm, hc], hp⟩

theorem headOk_facts {c : Char}
    (h : cIsDigit c = true ∨ c = '(' ∨ c = '+' ∨ c = '-' ∨ c = '!') :
    cIsSpace c = false ∧ c ≠ '=' := by
  rcases h with h | h | h | h | h
  · exact ⟨digit_not_space h, ne_of_digit h (by decide)⟩
  all_goals (subst h; exact ⟨by decide, by decide⟩)

theorem matchStr2_second_ne {a b x : Char} (hs : cIsSpace a = false) (hx : x ≠ b)
    (xs : List Char) : matchStr [a, b] (a :: x :: xs) = none := by
  simp [matchStr, skipWs_cons hs, listStarts, Ne.symm hx]

/-! ### Conditional single steps of the parser loops -/

section Steps

variable (Γ : VarMap) (et : String) {f : Nat} {xs r r2 r3 : List Char} {v rv : ℚ}

theorem step_lor (h : parseGo Γ et .land f xs = .ok (v, r)) :
    parseGo Γ et .lor (f + 1) xs = parseGo Γ et (.lorLoop v) f r := by
  simp only [parseGo_lor, h]

theorem step_lorLoop (hm : matchStr ['|', '|'] xs = some r)
    (hp : parseGo Γ et .land f r = .ok (rv, r2)) :
    parseGo Γ et (.lorLoop v) (f + 1) xs =
      parseGo Γ et (.lorLoop (if qtruthy v || qtruthy rv then 1 else 0)) f r2 := by
  simp only [parseGo_lorLoop, hm, hp]

theorem stop_lorLoop (hm : matchStr ['|', '|'] xs = none) :
    parseGo Γ et (.lorLoop v) (f + 1) xs = .ok (v, xs) := by
  simp only [parseGo_lorLoop, hm]

theorem step_land (h : parseGo Γ et .eq f xs = .ok (v, r)) :
    parseGo Γ et .land (f + 1) xs = parseGo Γ et (.landLoop v) f r := by
  simp only [parseGo_land, h]

theorem step_landLoop (hm : matchStr ['&', '&'] xs = some r)
    (hp : parseGo Γ et .eq f r = .ok (rv, r2)) :
    parseGo Γ et (.landLoop v) (f + 1) xs =
      parseGo Γ et (.landLoop (if qtruthy v && qtruthy rv then 1 else 0)) f r2 := by
  simp only [parseGo_landLoop, hm, hp]

theorem stop_landLoop (hm : matchStr ['&', '&'] xs = none) :
    parseGo Γ et (.landLoop v) (f + 1) xs = .ok (v, xs) := by
  simp only [parseGo_landLoop, hm]

theorem step_eq (h : parseGo Γ et .cmp f xs = .ok (v, r)) :
    parseGo Γ et .eq (f + 1) xs = parseGo Γ et (.eqLoop v) f r := by
  simp only [parseGo_eq, h]

theorem step_eqLoop_eq (hm : matchStr ['=', '='] xs = some r)
    (hp : parseGo Γ et .cmp f r = .ok (rv, r2)) :
    parseGo Γ et (.eqLoop v) (f + 1) xs =
      parseGo Γ et (.eqLoop (if v = rv then 1 else 0)) f r2 := by
  simp only [parseGo_eqLoop, hm, hp]

theorem step_eqLoop_ne (hm : matchStr ['=', '='] xs = none)
    (hn : matchStr ['!', '='] xs = some r)
    (hp : parseGo Γ et .cmp f r = .ok (rv, r2)) :
    parseGo Γ et (.eqLoop v) (f + 1) xs =
      parseGo Γ et (.eqLoop (if v ≠ rv then 1 else 0)) f r2 := by
  simp only [parseGo_eqLoop, hm, hn, hp]

theorem stop_eqLoop (hm : matchStr ['=', '='] xs = none)
    (hn : matchStr ['!', '='] xs = none) :
    parseGo Γ et (.eqLoop v) (f + 1) xs = .ok (v, xs) := by
  simp only [parseGo_eqLoop, hm, hn]

theorem step_cmp (h : parseGo Γ et .term f xs = .ok (v, r)) :
    parseGo Γ et .cmp (f + 1) xs = parseGo Γ et (.cmpLoop v) f r := by
  simp only [parseGo_cmp, h]

theorem step_cmpLoop_ge (hm : matchStr ['>', '='] xs = some r)
    (hp : parseGo Γ et .term f r = .ok (rv, r2)) :
    parseGo Γ et (.cmpLoop v) (f + 1) xs =
      parseGo Γ et (.cmpLoop (if rv ≤ v then 1 else 0)) f r2 := by
  simp only [parseGo_cmpLoop, hm, hp]

theorem step_cmpLoop_le (hm : matchStr ['>', '='] xs = none)
    (hn : matchStr ['<', '='] xs = some r)
    (hp : parseGo Γ et .term f r = .ok (rv, r2)) :
    parseGo Γ et (.cmpLoop v) (f + 1) xs =
      parseGo Γ et (.cmpLoop (if v ≤ rv then 1 else 0)) f r2 := by
  simp only [parseGo_cmpLoop, hm, hn, hp]

theorem step_cmpLoop_gt (hm : matchStr ['>', '='] xs = none)
    (hn : matchStr ['<', '='] xs = none) (hg : matchChar '>' xs = some r)
    (hp : parseGo Γ et .term f r = .ok (rv, r2)) :
    parseGo Γ et (.cmpLoop v) (f + 1) xs =
      parseGo Γ et (.cmpLoop (if rv < v then 1 else 0)) f r2 := by
  simp only [parseGo_cmpLoop, hm, hn, hg, hp]

theorem step_cmpLoop_lt (hm : matchStr ['>', '='] xs = none)
    (hn : matchStr ['<', '='] xs = none) (hg : matchChar '>' xs = none)
    (hl : matchChar '<' xs = some r)
    (hp : parseGo Γ et .term f r = .ok (rv, r2)) :
    parseGo Γ et (.cmpLoop v) (f + 1) xs =
      parseGo Γ et (.cmpLoop (if v < rv then 1 else 0)) f r2 := by
  simp only [parseGo_cmpLoop, hm, hn, hg, hl, hp]

theorem stop_cmpLoop (hm : matchStr ['>', '='] xs = none)
    (hn : matchStr ['<', '='] xs = none) (hg : matchChar '>' xs = none)
    (hl : matchChar '<' xs = none) :
    parseGo Γ et (.cmpLoop v) (f + 1) xs = .ok (v, xs) := by
  simp only [parseGo_cmpLoop, hm, hn, hg, hl]

theorem step_term (h : parseGo Γ et .factor f xs = .ok (v, r)) :
    parseGo Γ et .term (f + 1) xs = parseGo Γ et (.termLoop v) f r := by
  simp only [parseGo_term, h]

theorem step_termLoop_add (hm : matchChar '+' xs = some r)
    (hp : parseGo Γ et .factor f r = .ok (rv, r2)) :
    parseGo Γ et (.termLoop v) (f + 1) xs = parseGo Γ et (.termLoop (v + rv)) f r2 := by
  simp only [parseGo_termLoop, hm, hp]

theorem step_termLoop_sub (hm : matchChar '+' xs = none)
    (hn : matchChar '-' xs = some r)
    (hp : parseGo Γ et .factor f r = .ok (rv, r2)) :
    parseGo Γ et (.termLoop v) (f + 1) xs = parseGo Γ et (.termLoop (v - rv)) f r2 := by
  simp only [parseGo_termLoop, hm, hn, hp]

theorem stop_termLoop (hm : matchChar '+' xs = none) (hn : matchChar '-' xs = none) :
    parseGo Γ et (.termLoop v) (f + 1) xs = .ok (v, xs) := by
  simp only [parseGo_termLoop, hm, hn]

theorem step_factor (h : parseGo Γ et .unary f xs = .ok (v, r)) :
    parseGo Γ et .factor (f + 1) xs = parseGo Γ et (.factorLoop v) f r := by
  simp only [parseGo_factor, h]

theorem step_facLoop_mul (hm : matchChar '*' xs = some r)
    (hp : parseGo Γ et .unary f r = .ok (rv, r2)) :
    parseGo Γ et (.factorLoop v) (f + 1) xs =
      parseGo Γ et (.factorLoop (v * rv)) f r2 := by
  simp only [parseGo_factorLoop, hm, hp]

theorem step_facLoop_div (hm : matchChar '*' xs = none)
    (hn : matchChar '/' xs = some r)
    (hp : parseGo Γ et .unary f r = .ok (rv, r2)) :
    parseGo Γ et (.factorLoop v) (f + 1) xs =
      parseGo Γ et (.factorLoop (v / rv)) f r2 := by
  simp only [parseGo_factorLoop, hm, hn, hp]

theorem step_facLoop_mod (hm : matchChar '*' xs = none)
    (hn : matchChar '/' xs = none) (ho : matchChar '%' xs = some r)
    (hp : parseGo Γ et .unary f r = .ok (rv, r2)) :
    parseGo Γ et (.factorLoop v) (f + 1) xs =
      parseGo Γ et (.factorLoop (cfmod v rv)) f r2 := by
  simp only [parseGo_factorLoop, hm, hn, ho, hp]

theorem stop_facLoop (hm : matchChar '*' xs = none) (hn : matchChar '/' xs = none)
    (ho : matchChar '%' xs = none) :
    parseGo Γ et (.factorLoop v) (f + 1) xs = .ok (v, xs) := by
  simp only [parseGo_factorLoop, hm, hn, ho]

theorem step_unary_pos (hm : matchChar '+' xs = some r) :
    parseGo Γ et .unary (f + 1) xs = parseGo Γ et .unary f r := by
  simp only [parseGo_unary, hm]

theorem step_unary_neg (hm : matchChar '+' xs = none)
    (hn : matchChar '-' xs = some r)
    (hp : parseGo Γ et .unary f r = .ok (v, r2)) :
    parseGo Γ et .unary (f + 1) xs = .ok (-v, r2) := by
  simp only [parseGo_unary, hm, hn, hp]

theorem step_unary_lnot (hm : matchChar '+' xs = none)
    (hn : matchChar '-' xs = none) (ho : matchChar '!' xs = some r)
    (hp : parseGo Γ et .unary f r = .ok (v, r2)) :
    parseGo Γ et .unary (f + 1) xs = .ok (if qtruthy v then (0 : ℚ) else 1, r2) := by
  simp only [parseGo_unary, hm, hn, ho, hp]

theorem step_unary_prim (hm : matchChar '+' xs = none)
    (hn : matchChar '-' xs = none) (ho : matchChar '!' xs = none) :
    parseGo Γ et .unary (f + 1) xs = parseGo Γ et .primary f xs := by
  simp only [parseGo_unary, hm, hn, ho]

theorem step_primary_paren (hm : matchChar '(' xs = some r)
    (hp : parseGo Γ et .expr f r = .ok (v, r2)) (hc : matchChar ')' r2 = some r3) :
    parseGo Γ et .primary (f + 1) xs = .ok (v, r3) := by
  simp only [parseGo_primary, hm, hp, hc]

theorem step_primary_num (hm : matchChar '(' xs = none)
    (ha : cIsAlpha (peekc (skipWs xs)) = false) (hu : peekc (skipWs xs) ≠ '_')
    (hd : cIsDigit (peekc (skipWs xs)) = true) :
    parseGo Γ et .primary (f + 1) xs = parseNumber et (skipWs xs) := by
  simp only [parseGo_primary, hm, ha, decide_eq_false hu, Bool.or_self,
    Bool.false_eq_true, if_false, hd, Bool.true_or, if_true]

end Steps

/-! ### The parser computes direct evaluation on every printed tree -/

set_option maxHeartbeats 2000000 in
mutual

theorem parseOrCont (Γ : VarMap) (et : String) (e : OrE) :
    ∀ f rest, costOr e ≤ f → FollowAnd rest →
    ∃ g, f + 1 ≤ g + costOr e ∧
      parseGo Γ et .lor f (printOr e ++ rest) =
        parseGo Γ et (.lorLoop (denoteOr e)) g rest := by
  cases e with
  | one a =>
    intro f rest hf hr
    have h1 : costAnd a + 2 ≤ f := by simpa [costOr] using hf
    obtain ⟨g, rfl⟩ : ∃ g, f = g + 1 := ⟨f - 1, by omega⟩
    refine ⟨g, by simp [costOr]; omega, ?_⟩
    show parseGo Γ et .lor (g + 1) (printAnd a ++ rest) = _
    rw [step_lor Γ et (parseAndFull Γ et a g rest (by omega) hr)] <;> rfl
  | orr l a =>
    intro f rest hf hr
    have h1 : costOr l + costAnd a + 1 ≤ f := by simpa [costOr] using hf
    obtain ⟨g1, hg1, heq⟩ := parseOrCont Γ et l f ('|' :: '|' :: (printAnd a ++ rest))
      (by omega) (followAnd_bar _)
    obtain ⟨g2, rfl⟩ : ∃ g2, g1 = g2 + 1 := ⟨g1 - 1, by omega⟩
    refine ⟨g2, by simp [costOr]; omega, ?_⟩
    have happ : printOr (.orr l a) ++ rest =
        printOr l ++ ('|' :: '|' :: (printAnd a ++ rest)) := by
      simp [printOr]
    rw [happ, heq, step_lorLoop Γ et (matchStr2_cons_self (by decide) _)
      (parseAndFull Γ et a g2 rest (by omega) hr)] <;> rfl

theorem parseOrFull (Γ : VarMap) (et : String) (e : OrE) :
    ∀ f rest, costOr e ≤ f → FollowOr rest →
    parseGo Γ et .lor f (printOr e ++ rest) = .ok (denoteOr e, rest) := by
  intro f rest hf hr
  obtain ⟨g, hg, heq⟩ := parseOrCont Γ et e f rest hf hr.1
  obtain ⟨g2, rfl⟩ : ∃ g2, g = g2 + 1 := ⟨g - 1, by omega⟩
  rw [heq, stop_lorLoop Γ et hr.2] <;> rfl

theorem parseAndCont (Γ : VarMap) (et : String) (e : AndE) :
    ∀ f rest, costAnd e ≤ f → FollowEq rest →
    ∃ g, f + 1 ≤ g + costAnd e ∧
      parseGo Γ et .land f (printAnd e ++ rest) =
        parseGo Γ et (.landLoop (denoteAnd e)) g rest := by
  cases e with
  | one q =>
    intro f rest hf hr
    have h1 : costEq q + 2 ≤ f := by simpa [costAnd] using hf
    obtain ⟨g, rfl⟩ : ∃ g, f = g + 1 := ⟨f - 1, by omega⟩
    refine ⟨g, by simp [costAnd]; omega, ?_⟩
    show parseGo Γ et .land (g + 1) (printEq q ++ rest) = _
    rw [step_land Γ et (parseEqFull Γ et q g rest (by omega) hr)] <;> rfl
  | andd l q =>
    intro f rest hf hr
    have h1 : costAnd l + costEq q + 1 ≤ f := by simpa [costAnd] using hf
    obtain ⟨g1, hg1, heq⟩ := parseAndCont Γ et l f ('&' :: '&' :: (printEq q ++ rest))
      (by omega) (followEq_amp _)
    obtain ⟨g2, rfl⟩ : ∃ g2, g1 = g2 + 1 := ⟨g1 - 1, by omega⟩
    refine ⟨g2, by simp [costAnd]; omega, ?_⟩
    have happ : printAnd (.andd l q) ++ rest =
        printAnd l ++ ('&' :: '&' :: (printEq q ++ rest)) := by
      simp [printAnd]
    rw [happ, heq, step_landLoop Γ et (matchStr2_cons_self (by decide) _)
      (parseEqFull Γ et q g2 rest (by omega) hr)] <;> rfl

theorem parseAndFull (Γ : VarMap) (et : String) (e : AndE) :
    ∀ f rest, costAnd e ≤ f → FollowAnd rest →
    parseGo Γ et .land f (printAnd e ++ rest) = .ok (denoteAnd e, rest) := by
  intro f rest hf hr
  obtain ⟨g, hg, heq⟩ := parseAndCont Γ et e f rest hf hr.1
  obtain ⟨g2, rfl⟩ : ∃ g2, g = g2 + 1 := ⟨g - 1, by omega⟩
  rw [heq, stop_landLoop Γ et hr.2] <;> rfl

theorem parseEqCont (Γ : VarMap) (et : String) (e : EqE) :
    ∀ f rest, costEq e ≤ f → FollowCmp rest →
    ∃ g, f + 1 ≤ g + costEq e ∧
      parseGo Γ et .eq f (printEq e ++ rest) =
        parseGo Γ et (.eqLoop (denoteEq e)) g rest := by
  cases e with
  | one c =>
    intro f rest hf hr
    have h1 : costCmp c + 2 ≤ f := by simpa [costEq] using hf
    obtain ⟨g, rfl⟩ : ∃ g, f = g + 1 := ⟨f - 1, by omega⟩
    refine ⟨g, by simp [costEq]; omega, ?_⟩
    show parseGo Γ et .eq (g + 1) (printCmp c ++ rest) = _
    rw [step_eq Γ et (parseCmpFull Γ et c g rest (by omega) hr)] <;> rfl
  | eqq l c =>
    intro f rest hf hr
    have h1 : costEq l + costCmp c + 1 ≤ f := by simpa [costEq] using hf
    obtain ⟨g1, hg1, heq⟩ := parseEqCont Γ et l f ('=' :: '=' :: (printCmp c ++ rest))
      (by omega) (followCmp_eqCh _)
    obtain ⟨g2, rfl⟩ : ∃ g2, g1 = g2 + 1 := ⟨g1 - 1, by omega⟩
    refine ⟨g2, by simp [costEq]; omega, ?_⟩
    have happ : printEq (.eqq l c) ++ rest =
        printEq l ++ ('=' :: '=' :: (printCmp c ++ rest)) := by
      simp [printEq]
    rw [happ, heq, step_eqLoop_eq Γ et (matchStr2_cons_self (by decide) _)
      (parseCmpFull Γ et c g2 rest (by omega) hr)] <;> rfl
  | neq l c =>
    intro f rest hf hr
    have h1 : costEq l + costCmp c + 1 ≤ f := by simpa [costEq] using hf
    obtain ⟨g1, hg1, heq⟩ := parseEqCont Γ et l f ('!' :: '=' :: (printCmp c ++ rest))
      (by omega) (followCmp_bang _)
    obtain ⟨g2, rfl⟩ : ∃ g2, g1 = g2 + 1 := ⟨g1 - 1, by omega⟩
    refine ⟨g2, by simp [costEq]; omega, ?_⟩
    have happ : printEq (.neq l c) ++ rest =
        printEq l ++ ('!' :: '=' :: (printCmp c ++ rest)) := by
      simp [printEq]
    rw [happ, heq, step_eqLoop_ne Γ et (matchStr2_cons_ne (by decide) (by decide) _)
      (matchStr2_cons_self (by decide) _)
      (parseCmpFull Γ et c g2 rest (by omega) hr)] <;> rfl

theorem parseEqFull (Γ : VarMap) (et : String) (e : EqE) :
    ∀ f rest, costEq e ≤ f → FollowEq rest →
    parseGo Γ et .eq f (printEq e ++ rest) = .ok (denoteEq e, rest) := by
  intro f rest hf hr
  obtain ⟨g, hg, heq⟩ := parseEqCont Γ et e f rest hf hr.1
  obtain ⟨g2, rfl⟩ : ∃ g2, g = g2 + 1 := ⟨g - 1, by omega⟩
  rw [heq, stop_eqLoop Γ et hr.2.1 hr.2.2] <;> rfl

theorem parseCmpCont (Γ : VarMap) (et : String) (e : CmpE) :
    ∀ f rest, costCmp e ≤ f → FollowTerm rest →
    ∃ g, f + 1 ≤ g + costCmp e ∧
      parseGo Γ et .cmp f (printCmp e ++ rest) =
        parseGo Γ et (.cmpLoop (denoteCmp e)) g rest := by
  cases e with
  | one t =>
    intro f rest hf hr
    have h1 : costTerm t + 2 ≤ f := by simpa [costCmp] using hf
    obtain ⟨g, rfl⟩ : ∃ g, f = g + 1 := ⟨f - 1, by omega⟩
    refine ⟨g, by simp [costCmp]; omega, ?_⟩
    show parseGo Γ et .cmp (g + 1) (printTerm t ++ rest) = _
    rw [step_cmp Γ et (parseTermFull Γ et t g rest (by omega) hr)] <;> rfl
  | gtc l t =>
    intro f rest hf hr
    have h1 : costCmp l + costTerm t + 1 ≤ f := by simpa [costCmp] using hf
    obtain ⟨g1, hg1, heq⟩ := parseCmpCont Γ et l f ('>' :: (printTerm t ++ rest))
      (by omega) (followTerm_gtCh _)
    obtain ⟨g2, rfl⟩ : ∃ g2, g1 = g2 + 1 := ⟨g1 - 1, by omega⟩
    refine ⟨g2, by simp [costCmp]; omega, ?_⟩
    have happ : printCmp (.gtc l t) ++ rest =
        printCmp l ++ ('>' :: (printTerm t ++ rest)) := by
      simp [printCmp]
    obtain ⟨c, cs, hc, hp⟩ := printTerm_head t
    have hcf := headOk_facts hp
    have hge : matchStr ['>', '='] ('>' :: (printTerm t ++ rest)) = none := by
      rw [hc, List.cons_append]
      exact matchStr2_second_ne (by decide) hcf.2 _
    rw [happ, heq, step_cmpLoop_gt Γ et hge (matchStr2_cons_ne (by decide) (by decide) _)
      (matchChar_cons_self (by decide) _)
      (parseTermFull Γ et t g2 rest (by omega) hr)] <;> rfl
  | ltc l t =>
    intro f rest hf hr
    have h1 : costCmp l + costTerm t + 1 ≤ f := by simpa [costCmp] using hf
    obtain ⟨g1, hg1, heq⟩ := parseCmpCont Γ et l f ('<' :: (printTerm t ++ rest))
      (by omega) (followTerm_ltCh _)
    obtain ⟨g2, rfl⟩ : ∃ g2, g1 = g2 + 1 := ⟨g1 - 1, by omega⟩
    refine ⟨g2, by simp [costCmp]; omega, ?_⟩
    have happ : printCmp (.ltc l t) ++ rest =
        printCmp l ++ ('<' :: (printTerm t ++ rest)) := by
      simp [printCmp]
    obtain ⟨c, cs, hc, hp⟩ := printTerm_head t
    have hcf := headOk_facts hp
    have hle : matchStr ['<', '='] ('<' :: (printTerm t ++ rest)) = none := by
      rw [hc, List.cons_append]
      exact matchStr2_second_ne (by decide) hcf.2 _
    rw [happ, heq, step_cmpLoop_lt Γ et (matchStr2_cons_ne (by decide) (by decide) _)
      hle (matchChar_cons_ne (by decide) (by decide) _)
      (matchChar_cons_self (by decide) _)
      (parseTermFull Γ et t g2 rest (by omega) hr)] <;> rfl
  | gec l t =>
    intro f rest hf hr
    have h1 : costCmp l + costTerm t + 1 ≤ f := by simpa [costCmp] using hf
    obtain ⟨g1, hg1, heq⟩ := parseCmpCont Γ et l f ('>' :: '=' :: (printTerm t ++ rest))
      (by omega) (followTerm_gtCh _)
    obtain ⟨g2, rfl⟩ : ∃ g2, g1 = g2 + 1 := ⟨g1 - 1, by omega⟩
    refine ⟨g2, by simp [costCmp]; omega, ?_⟩
    have happ : printCmp (.gec l t) ++ rest =
        printCmp l ++ ('>' :: '=' :: (printTerm t ++ rest)) := by
      simp [printCmp]
    rw [happ, heq, step_cmpLoop_ge Γ et (matchStr2_cons_self (by decide) _)
      (parseTermFull Γ et t g2 rest (by omega) hr)] <;> rfl
  | lec l t =>
    intro f rest hf hr
    have h1 : costCmp l + costTerm t + 1 ≤ f := by simpa [costCmp] using hf
    obtain ⟨g1, hg1, heq⟩ := parseCmpCont Γ et l f ('<' :: '=' :: (printTerm t ++ rest))
      (by omega) (followTerm_ltCh _)
    obtain ⟨g2, rfl⟩ : ∃ g2, g1 = g2 + 1 := ⟨g1 - 1, by omega⟩
    refine ⟨g2, by simp [costCmp]; omega, ?_⟩
    have happ : printCmp (.lec l t) ++ rest =
        printCmp l ++ ('<' :: '=' :: (printTerm t ++ rest)) := by
      simp [printCmp]
    rw [happ, heq, step_cmpLoop_le Γ et (matchStr2_cons_ne (by decide) (by decide) _)
      (matchStr2_cons_self (by decide) _)
      (parseTermFull Γ et t g2 rest (by omega) hr)] <;> rfl

theorem parseCmpFull (Γ : VarMap) (et : String) (e : CmpE) :
    ∀ f rest, costCmp e ≤ f → FollowCmp rest →
    parseGo Γ et .cmp f (printCmp e ++ rest) = .ok (denoteCmp e, rest) := by
  intro f rest hf hr
  obtain ⟨g, hg, heq⟩ := parseCmpCont Γ et e f rest hf hr.1
  obtain ⟨g2, rfl⟩ : ∃ g2, g = g2 + 1 := ⟨g - 1, by omega⟩
  rw [heq, stop_cmpLoop Γ et hr.2.1 hr.2.2.1 hr.2.2.2.1 hr.2.2.2.2] <;> rfl

theorem parseTermCont (Γ : VarMap) (et : String) (e : TermE) :
    ∀ f rest, costTerm e ≤ f → FollowFac rest →
    ∃ g, f + 1 ≤ g + costTerm e ∧
      parseGo Γ et .term f (printTerm e ++ rest) =
        parseGo Γ et (.termLoop (denoteTerm e)) g rest := by
  cases e with
  | one fa =>
    intro f rest hf hr
    have h1 : costFac fa + 2 ≤ f := by simpa [costTerm] using hf
    obtain ⟨g, rfl⟩ : ∃ g, f = g + 1 := ⟨f - 1, by omega⟩
    refine ⟨g, by simp [costTerm]; omega, ?_⟩
    show parseGo Γ et .term (g + 1) (printFac fa ++ rest) = _
    rw [step_term Γ et (parseFacFull Γ et fa g rest (by omega) hr)] <;> rfl
  | add l fa =>
    intro f rest hf hr
    have h1 : costTerm l + costFac fa + 1 ≤ f := by simpa [costTerm] using hf
    obtain ⟨g1, hg1, heq⟩ := parseTermCont Γ et l f ('+' :: (printFac fa ++ rest))
      (by omega) (followFac_plus _)
    obtain ⟨g2, rfl⟩ : ∃ g2, g1 = g2 + 1 := ⟨g1 - 1, by omega⟩
    refine ⟨g2, by simp [costTerm]; omega, ?_⟩
    have happ : printTerm (.add l fa) ++ rest =
        printTerm l ++ ('+' :: (printFac fa ++ rest)) := by
      simp [printTerm]
    rw [happ, heq, step_termLoop_add Γ et (matchChar_cons_self (by decide) _)
      (parseFacFull Γ et fa g2 rest (by omega) hr)] <;> rfl
  | sub l fa =>
    intro f rest hf hr
    have h1 : costTerm l + costFac fa + 1 ≤ f := by simpa [costTerm] using hf
    obtain ⟨g1, hg1, heq⟩ := parseTermCont Γ et l f ('-' :: (printFac fa ++ rest))
      (by omega) (followFac_minus _)
    obtain ⟨g2, rfl⟩ : ∃ g2, g1 = g2 + 1 := ⟨g1 - 1, by omega⟩
    refine ⟨g2, by simp [costTerm]; omega, ?_⟩
    have happ : printTerm (.sub l fa) ++ rest =
        printTerm l ++ ('-' :: (printFac fa ++ rest)) := by
      simp [printTerm]
    rw [happ, heq, step_termLoop_sub Γ et (matchChar_cons_ne (by decide) (by decide) _)
      (matchChar_cons_self (by decide) _)
      (parseFacFull Γ et fa g2 rest (by omega) hr)] <;> rfl

theorem parseTermFull (Γ : VarMap) (et : String) (e : TermE) :
    ∀ f rest, costTerm e ≤ f → FollowTerm rest →
    parseGo Γ et .term f (printTerm e ++ rest) = .ok (denoteTerm e, rest) := by
  intro f rest hf hr
  obtain ⟨g, hg, heq⟩ := parseTermCont Γ et e f rest hf hr.1
  obtain ⟨g2, rfl⟩ : ∃ g2, g = g2 + 1 := ⟨g - 1, by omega⟩
  rw [heq, stop_termLoop Γ et hr.2.1 hr.2.2] <;> rfl

theorem parseFacCont (Γ : VarMap) (et : String) (e : FacE) :
    ∀ f rest, costFac e ≤ f → FollowNum rest →
    ∃ g, f + 1 ≤ g + costFac e ∧
      parseGo Γ et .factor f (printFac e ++ rest) =
        parseGo Γ et (.factorLoop (denoteFac e)) g rest := by
  cases e with
  | one u =>
    intro f rest hf hr
    have h1 : costUn u + 2 ≤ f := by simpa [costFac] using hf
    obtain ⟨g, rfl⟩ : ∃ g, f = g + 1 := ⟨f - 1, by omega⟩
    refine ⟨g, by simp [costFac]; omega, ?_⟩
    show parseGo Γ et .factor (g + 1) (printUn u ++ rest) = _
    rw [step_factor Γ et (parseUn_ok Γ et u g rest (by omega) hr)] <;> rfl
  | mul l u =>
    intro f rest hf hr
    have h1 : costFac l + costUn u + 1 ≤ f := by simpa [costFac] using hf
    obtain ⟨g1, hg1, heq⟩ := parseFacCont Γ et l f ('*' :: (printUn u ++ rest))
      (by omega) (followNum_star _)
    obtain ⟨g2, rfl⟩ : ∃ g2, g1 = g2 + 1 := ⟨g1 - 1, by omega⟩
    refine ⟨g2, by simp [costFac]; omega, ?_⟩
    have happ : printFac (.mul l u) ++ rest =
        printFac l ++ ('*' :: (printUn u ++ rest)) := by
      simp [printFac]
    rw [happ, heq, step_facLoop_mul Γ et (matchChar_cons_self (by decide) _)
      (parseUn_ok Γ et u g2 rest (by omega) hr)] <;> rfl
  | div l u =>
    intro f rest hf hr
    have h1 : costFac l + costUn u + 1 ≤ f := by simpa [costFac] using hf
    obtain ⟨g1, hg1, heq⟩ := parseFacCont Γ et l f ('/' :: (printUn u ++ rest))
      (by omega) (followNum_slash _)
    obtain ⟨g2, rfl⟩ : ∃ g2, g1 = g2 + 1 := ⟨g1 - 1, by omega⟩
    refine ⟨g2, by simp [costFac]; omega, ?_⟩
    have happ : printFac (.div l u) ++ rest =
        printFac l ++ ('/' :: (printUn u ++ rest)) := by
      simp [printFac]
    rw [happ, heq, step_facLoop_div Γ et (matchChar_cons_ne (by decide) (by decide) _)
      (matchChar_cons_self (by decide) _)
      (parseUn_ok Γ et u g2 rest (by omega) hr)] <;> rfl
  | mod l u =>
    intro f rest hf hr
    have h1 : costFac l + costUn u + 1 ≤ f := by simpa [costFac] using hf
    obtain ⟨g1, hg1, heq⟩ := parseFacCont Γ et l f ('%' :: (printUn u ++ rest))
      (by omega) (followNum_pct _)
    obtain ⟨g2, rfl⟩ : ∃ g2, g1 = g2 + 1 := ⟨g1 - 1, by omega⟩
    refine ⟨g2, by simp [costFac]; omega, ?_⟩
    have happ : printFac (.mod l u) ++ rest =
        printFac l ++ ('%' :: (printUn u ++ rest)) := by
      simp [printFac]
    rw [happ, heq, step_facLoop_mod Γ et (matchChar_cons_ne (by decide) (by decide) _)
      (matchChar_cons_ne (by decide) (by decide) _)
      (matchChar_cons_self (by decide) _)
      (parseUn_ok Γ et u g2 rest (by omega) hr)] <;> rfl

theorem parseFacFull (Γ : VarMap) (et : String) (e : FacE) :
    ∀ f rest, costFac e ≤ f → FollowFac rest →
    parseGo Γ et .factor f (printFac e ++ rest) = .ok (denoteFac e, rest) := by
  intro f rest hf hr
  obtain ⟨g, hg, heq⟩ := parseFacCont Γ et e f rest hf hr.1
  obtain ⟨g2, rfl⟩ : ∃ g2, g = g2 + 1 := ⟨g - 1, by omega⟩
  rw [heq, stop_facLoop Γ et hr.2.1 hr.2.2.1 hr.2.2.2] <;> rfl

theorem parseUn_ok (Γ : VarMap) (et : String) (u : UnE) :
    ∀ f rest, costUn u ≤ f → FollowNum rest →
    parseGo Γ et .unary f (printUn u ++ rest) = .ok (denoteUn u, rest) := by
  cases u with
  | prim p =>
    intro f rest hf hr
    have h1 : costPrim p + 1 ≤ f := by simpa [costUn] using hf
    obtain ⟨g, rfl⟩ : ∃ g, f = g + 1 := ⟨f - 1, by omega⟩
    obtain ⟨c, cs, hc, hp⟩ := printPrim_head p
    have hcs : cIsSpace c = false := by
      rcases hp with h | h
      · exact digit_not_space h
      · subst h; decide
    have hcp : c ≠ '+' := by
      rcases hp with h | h
      · exact ne_of_digit h (by decide)
      · subst h; decide
    have hcm : c ≠ '-' := by
      rcases hp with h | h
      · exact ne_of_digit h (by decide)
      · subst h; decide
    have hcb : c ≠ '!' := by
      rcases hp with h | h
      · exact ne_of_digit h (by decide)
      · subst h; decide
    have hsplit : printUn (.prim p) ++ rest = c :: (cs ++ rest) := by
      show printPrim p ++ rest = _
      rw [hc]; simp
    rw [hsplit, step_unary_prim Γ et (matchChar_cons_ne hcs hcp _)
      (matchChar_cons_ne hcs hcm _) (matchChar_cons_ne hcs hcb _),
      ← List.cons_append, ← hc]
    exact parsePrim_ok Γ et p g rest (by omega) hr
  | pos u =>
    intro f rest hf hr
    have h1 : costUn u + 1 ≤ f := by simpa [costUn] using hf
    obtain ⟨g, rfl⟩ : ∃ g, f = g + 1 := ⟨f - 1, by omega⟩
    show parseGo Γ et .unary (g + 1) (('+' :: printUn u) ++ rest) = _
    rw [List.cons_append, step_unary_pos Γ et (matchChar_cons_self (by decide) _)]
    exact parseUn_ok Γ et u g rest (by omega) hr
  | neg u =>
    intro f rest hf hr
    have h1 : costUn u + 1 ≤ f := by simpa [costUn] using hf
    obtain ⟨g, rfl⟩ : ∃ g, f = g + 1 := ⟨f - 1, by omega⟩
    show parseGo Γ et .unary (g + 1) (('-' :: printUn u) ++ rest) = _
    rw [List.cons_append, step_unary_neg Γ et (matchChar_cons_ne (by decide) (by decide) _)
      (matchChar_cons_self (by decide) _) (parseUn_ok Γ et u g rest (by omega) hr)] <;> rfl
  | lnot u =>
    intro f rest hf hr
    have h1 : costUn u + 1 ≤ f := by simpa [costUn] using hf
    obtain ⟨g, rfl⟩ : ∃ g, f = g + 1 := ⟨f - 1, by omega⟩
    show parseGo Γ et .unary (g + 1) (('!' :: printUn u) ++ rest) = _
    rw [List.cons_append, step_unary_lnot Γ et (matchChar_cons_ne (by decide) (by decide) _)
      (matchChar_cons_ne (by decide) (by decide) _) (matchChar_cons_self (by decide) _)
      (parseUn_ok Γ et u g rest (by omega) hr)] <;> rfl

theorem parsePrim_ok (Γ : VarMap) (et : String) (p : PrimE) :
    ∀ f rest, costPrim p ≤ f → FollowNum rest →
    parseGo Γ et .primary f (printPrim p ++ rest) = .ok (denotePrim p, rest) := by
  cases p with
  | num n =>
    intro f rest hf hr
    obtain ⟨g, rfl⟩ : ∃ g, f = g + 1 := ⟨f - 1, by simp [costPrim] at hf; omega⟩
    obtain ⟨d, ds, hdc⟩ : ∃ d ds, natToChars n = d :: ds := by
      cases hnc : natToChars n with
      | nil => exact absurd hnc (natToChars_ne_nil n)
      | cons d ds => exact ⟨d, ds, rfl⟩
    have hd : cIsDigit d = true := natToChars_digits n d (by rw [hdc]; simp)
    have hds : cIsSpace d = false := digit_not_space hd
    have hsplit : printPrim (.num n) ++ rest = d :: (ds ++ rest) := by
      show natToChars n ++ rest = _
      rw [hdc]; simp
    have hsk : skipWs (d :: (ds ++ rest)) = d :: (ds ++ rest) := skipWs_cons hds _
    have hpk : peekc (skipWs (d :: (ds ++ rest))) = d := by
      rw [hsk]; exact peekc_cons hds _
    rw [hsplit, step_primary_num Γ et (matchChar_cons_ne hds (ne_of_digit hd (by decide)) _)
      (by rw [hpk]; exact digit_not_alpha hd)
      (by rw [hpk]; exact ne_of_digit hd (by decide)) (by rw [hpk]; exact hd), hsk,
      ← List.cons_append, ← hdc]
    exact parseNumber_natToChars et n hr
  | paren e =>
    intro f rest hf hr
    have h1 : costOr e + 2 ≤ f := by simpa [costPrim] using hf
    obtain ⟨g, rfl⟩ : ∃ g, f = g + 1 := ⟨f - 1, by omega⟩
    obtain ⟨g2, rfl⟩ : ∃ g2, g = g2 + 1 := ⟨g - 1, by omega⟩
    have hsplit : printPrim (.paren e) ++ rest = '(' :: (printOr e ++ (')' :: rest)) := by
      show ('(' :: (printOr e ++ [')'])) ++ rest = _
      simp
    rw [hsplit, step_primary_paren Γ et (matchChar_cons_self (by decide) _)
      (by rw [parseGo_expr]
          exact parseOrFull Γ et e g2 (')' :: rest) (by omega) (followOr_rparen _))
      (matchChar_cons_self (by decide) _)] <;> rfl

end

/-! ### The parser fuel chosen by `evalExpr` suffices for every printed tree -/

mutual

theorem costOr_le (e : OrE) : costOr e ≤ 10 * (printOr e).length + 5 := by
  cases e with
  | one a =>
    have := costAnd_le a
    simp only [costOr, printOr]
    omega
  | orr l a =>
    have h1 := costOr_le l
    have h2 := costAnd_le a
    simp only [costOr, printOr, List.length_append, List.length_cons]
    omega

theorem costAnd_le (e : AndE) : costAnd e ≤ 10 * (printAnd e).length + 3 := by
  cases e with
  | one q =>
    have := costEq_le q
    simp only [costAnd, printAnd]
    omega
  | andd l q =>
    have h1 := costAnd_le l
    have h2 := costEq_le q
    simp only [costAnd, printAnd, List.length_append, List.length_cons]
    omega

theorem costEq_le (e : EqE) : costEq e ≤ 10 * (printEq e).length + 1 := by
  cases e with
  | one c =>
    have := costCmp_le c
    simp only [costEq, printEq]
    omega
  | eqq l c =>
    have h1 := costEq_le l
    have h2 := costCmp_le c
    simp only [costEq, printEq, List.length_append, List.length_cons]
    omega
  | neq l c =>
    have h1 := costEq_le l
    have h2 := costCmp_le c
    simp only [costEq, printEq, List.length_append, List.length_cons]
    omega

theorem costCmp_le (e : CmpE) : costCmp e + 1 ≤ 10 * (printCmp e).length := by
  cases e with
  | one t =>
    have := costTerm_le t
    simp only [costCmp, printCmp]
    omega
  | gtc l t =>
    have h1 := costCmp_le l
    have h2 := costTerm_le t
    simp only [costCmp, printCmp, List.length_append, List.length_cons]
    omega
  | ltc l t =>
    have h1 := costCmp_le l
    have h2 := costTerm_le t
    simp only [costCmp, printCmp, List.length_append, List.length_cons]
    omega
  | gec l t =>
    have h1 := costCmp_le l
    have h2 := costTerm_le t
    simp only [costCmp, printCmp, List.length_append, List.length_cons]
    omega
  | lec l t =>
    have h1 := costCmp_le l
    have h2 := costTerm_le t
    simp only [costCmp, printCmp, List.length_append, List.length_cons]
    omega

theorem costTerm_le (e : TermE) : costTerm e + 3 ≤ 10 * (printTerm e).length := by
  cases e with
  | one f =>
    have := costFac_le f
    simp only [costTerm, printTerm]
    omega
  | add l f =>
    have h1 := costTerm_le l
    have h2 := costFac_le f
    simp only [costTerm, printTerm, List.length_append, List.length_cons]
    omega
  | sub l f =>
    have h1 := costTerm_le l
    have h2 := costFac_le f
    simp only [costTerm, printTerm, List.length_append, List.length_cons]
    omega

theorem costFac_le (e : FacE) : costFac e + 5 ≤ 10 * (printFac e).length := by
  cases e with
  | one u =>
    have := costUn_le u
    simp only [costFac, printFac]
    omega
  | mul l u =>
    have h1 := costFac_le l
    have h2 := costUn_le u
    simp only [costFac, printFac, List.length_append, List.length_cons]
    omega
  | div l u =>
    have h1 := costFac_le l
    have h2 := costUn_le u
    simp only [costFac, printFac, List.length_append, List.length_cons]
    omega
  | mod l u =>
    have h1 := costFac_le l
    have h2 := costUn_le u
    simp only [costFac, printFac, List.length_append, List.length_cons]
    omega

theorem costUn_le (e : UnE) : costUn e + 7 ≤ 10 * (printUn e).length := by
  cases e with
  | prim p =>
    have := costPrim_le p
    simp only [costUn, printUn]
    omega
  | pos u =>
    have := costUn_le u
    simp only [costUn, printUn, List.length_cons]
    omega
  | neg u =>
    have := costUn_le u
    simp only [costUn, printUn, List.length_cons]
    omega
  | lnot u =>
    have := costUn_le u
    simp only [costUn, printUn, List.length_cons]
    omega

theorem costPrim_le (e : PrimE) : costPrim e + 8 ≤ 10 * (printPrim e).length := by
  cases e with
  | num n =>
    have hlen : 1 ≤ (natToChars n).length := by
      cases hnc : natToChars n with
      | nil => exact absurd hnc (natToChars_ne_nil n)
      | cons d ds => simp
    simp only [costPrim, printPrim]
    omega
  | paren e =>
    have := costOr_le e
    simp only [costPrim, printPrim, List.length_cons, List.length_append]
    omega

end

/-- The public evaluator contract on every expression of the grammar:
`evaluate` maps the concrete syntax of a tree to its direct evaluation,
for any variable store. -/
theorem evalExpr_print (Γ : VarMap) (et : String) (e : OrE) :
    evalExpr Γ (String.mk (printOr e)) et = .ok (denoteOr e) := by
  have hcost : costOr e + 1 ≤ exprFuel (printOr e) := by
    have := costOr_le e
    simp only [exprFuel]
    omega
  obtain ⟨g, hg⟩ : ∃ g, exprFuel (printOr e) = g + 1 :=
    ⟨10 * (printOr e).length + 29, by simp [exprFuel]⟩
  show peval Γ et (exprFuel (String.mk (printOr e)).data) (String.mk (printOr e)).data = _
  have hdata : (String.mk (printOr e)).data = printOr e := rfl
  rw [hdata, hg]
  show (match parseGo Γ et .expr (g + 1) (printOr e) with
    | Except.error e => Except.error e
    | Except.ok (v, r) =>
      match skipWs r with
      | [] => Except.ok v
      | r2 => Except.error (failMsg et "Unexpected trailing characters" r2)) = _
  rw [parseGo_expr]
  have hfull := parseOrFull Γ et e g [] (by omega) followOr_nil
  rw [List.append_nil] at hfull
  rw [hfull]
  rfl

/-! ### Trimming and tokenization -/

theorem dropWhile_append_ne {p : Char → Bool} {u : List Char}
    (h : u.dropWhile p ≠ []) (w : List Char) :
    (u ++ w).dropWhile p = u.dropWhile p ++ w := by
  induction u with
  | nil => exact absurd rfl h
  | cons c u ih =>
    by_cases hp : p c
    · simp only [List.cons_append, List.dropWhile_cons, hp, if_true]
      exact ih (by simpa [List.dropWhile_cons, hp] using h)
    · simp [List.dropWhile_cons, hp]

theorem ltrim_cons_space {c : Char} (h : cIsSpace c = true) (xs : List Char) :
    ltrim (c :: xs) = ltrim xs := by
  simp [ltrim, List.dropWhile_cons, h]

theorem ltrim_cons {c : Char} (h : cIsSpace c = false) (xs : List Char) :
    ltrim (c :: xs) = c :: xs := by
  simp [ltrim, List.dropWhile_cons, h]

theorem rtrim_append {a b : List Char} (h : rtrim b ≠ []) :
    rtrim (a ++ b) = a ++ rtrim b := by
  have hb : b.reverse.dropWhile cIsSpace ≠ [] := by
    intro he
    exact h (by simp [rtrim, he])
  simp only [rtrim, List.reverse_append]
  rw [dropWhile_append_ne hb]
  simp

theorem trim_cons_of_rtrim {c : Char} (hc : cIsSpace c = false) {xs : List Char} :
    trim (c :: xs) = rtrim (c :: xs) := by
  simp [trim, ltrim_cons hc]

/-- A line of the form `nonspace-head ++ tail`, with a trailing part whose
right trim is nonempty, trims to itself with only the tail right-trimmed. -/
theorem trim_head_append {c : Char} (hc : cIsSpace c = false) {a b : List Char}
    (h : rtrim b ≠ []) : trim (c :: (a ++ b)) = c :: (a ++ rtrim b) := by
  rw [trim_cons_of_rtrim hc]
  have : (c :: (a ++ b)) = (c :: a) ++ b := by simp
  rw [this, rtrim_append h]
  simp

theorem readTok_nil : readTok [] = ("", []) := rfl

theorem readTok_cons_space {c : Char} (h : cIsSpace c = true) (xs : List Char) :
    readTok (c :: xs) = readTok xs := by
  simp [readTok, ltrim_cons_space h]

/-- Reading one whitespace-delimited token. -/
theorem readTok_token {tk rest : List Char} (hne : tk ≠ [])
    (htk : ∀ c ∈ tk, cIsSpace c = false)
    (hr : ∀ c, rest.head? = some c → cIsSpace c = true) :
    readTok (tk ++ rest) = (String.mk tk, rest) := by
  obtain ⟨d, ds, rfl⟩ : ∃ d ds, tk = d :: ds := by
    cases tk with
    | nil => exact absurd rfl hne
    | cons d ds => exact ⟨d, ds, rfl⟩
  have hl : ltrim ((d :: ds) ++ rest) = (d :: ds) ++ rest :=
    ltrim_cons (htk d (by simp)) _
  have htk2 : ∀ c ∈ d :: ds, (!cIsSpace c) = true := by
    intro c hc
    simp [htk c hc]
  have htake : ((d :: ds) ++ rest).takeWhile (fun c => !cIsSpace c) = d :: ds := by
    rw [takeWhile_append_all htk2]
    cases rest with
    | nil => simp
    | cons x r => simp [List.takeWhile_cons, hr x rfl]
  have hdrop : ((d :: ds) ++ rest).dropWhile (fun c => !cIsSpace c) = rest := by
    rw [dropWhile_append_all htk2]
    cases rest with
    | nil => simp
    | cons x r => simp [List.dropWhile_cons, hr x rfl]
  simp only [readTok]
  rw [hl, htake, hdrop]

/-- Reading the final token of a line. -/
theorem readTok_last {tk : List Char} (hne : tk ≠ [])
    (htk : ∀ c ∈ tk, cIsSpace c = false) :
    readTok tk = (String.mk tk, []) := by
  have := @readTok_token tk [] hne htk (by intro c hc; simp at hc)
  simpa using this

theorem dropWhile_append_nil {p : Char → Bool} {u : List Char}
    (h : u.dropWhile p = []) (w : List Char) :
    (u ++ w).dropWhile p = w.dropWhile p := by
  induction u with
  | nil => simp
  | cons c u ih =>
    by_cases hp : p c
    · simp only [List.cons_append, List.dropWhile_cons, hp, if_true]
      exact ih (by simpa [List.dropWhile_cons, hp] using h)
    · simp [List.dropWhile_cons, hp] at h

theorem dropWhile_idem {p : Char → Bool} (u : List Char) :
    (u.dropWhile p).dropWhile p = u.dropWhile p := by
  induction u with
  | nil => rfl
  | cons c u ih =>
    by_cases hp : p c
    · simp [List.dropWhile_cons, hp, ih]
    · simp [List.dropWhile_cons, hp]

/-- Right trimming commutes with a non-space head. -/
theorem rtrim_cons {c : Char} (hc : cIsSpace c = false) (r : List Char) :
    rtrim (c :: r) = c :: rtrim r := by
  show ((c :: r).reverse.dropWhile cIsSpace).reverse = _
  rw [List.reverse_cons]
  by_cases hnil : r.reverse.dropWhile cIsSpace = []
  · rw [dropWhile_append_nil hnil]
    simp [List.dropWhile_cons, hc, rtrim, hnil]
  · rw [dropWhile_append_ne hnil]
    simp [rtrim]

theorem ltrim_head {xs : List Char} {c : Char} {r : List Char}
    (h : ltrim xs = c :: r) : cIsSpace c = false := by
  induction xs with
  | nil => simp [ltrim] at h
  | cons d ds ih =>
    by_cases hd : cIsSpace d
    · exact ih (by rwa [ltrim_cons_space hd] at h)
    · rw [ltrim_cons (by simp [hd])] at h
      cases h
      simp [hd]

theorem rtrim_rtrim (ys : List Char) : rtrim (rtrim ys) = rtrim ys := by
  simp [rtrim, dropWhile_idem]

theorem trim_trim (xs : List Char) : trim (trim xs) = trim xs := by
  show rtrim (ltrim (rtrim (ltrim xs))) = rtrim (ltrim xs)
  cases hl : ltrim xs with
  | nil => simp [ltrim, rtrim]
  | cons c r =>
    have hc : cIsSpace c = false := ltrim_head hl
    rw [rtrim_cons hc, ltrim_cons hc, rtrim_cons hc, rtrim_rtrim]

theorem trim_head {xs : List Char} {c : Char} {r : List Char}
    (h : trim xs = c :: r) : cIsSpace c = false := by
  cases hl : ltrim xs with
  | nil => simp [trim, hl, rtrim] at h
  | cons d ds =>
    have hd : cIsSpace d = false := ltrim_head hl
    rw [trim, hl, rtrim_cons hd] at h
    cases h
    exact hd

/-! ### The variable store -/

theorem vlookup_vset (m : VarMap) (x : String) (v : ℚ) :
    vlookup (vset m x v) x = some v := by
  induction m with
  | nil => simp [vset, vlookup]
  | cons kv r ih =>
    obtain ⟨k, w⟩ := kv
    by_cases hk : k = x
    · simp [vset, vlookup, hk]
    · simp [vset, vlookup, hk, ih]

/-! ### Single steps of the executor line loop -/

section ExecSteps

variable (execB : String → St → St) {l : List Char} (rest : List (List Char))
variable (p : Pending) (accRev : List (List Char)) (st : St)

theorem linesGoF_nil_none : linesGoF execB [] none st = st := rfl

theorem linesGoF_nil_some :
    linesGoF execB [] (some (p, accRev)) st = finishPending execB p accRev st := rfl

theorem linesGoF_cap_close (h : trim l = [')']) :
    linesGoF execB (l :: rest) (some (p, accRev)) st =
      linesGoF execB rest none (finishPending execB p accRev st) := by
  simp [linesGoF, h]

theorem linesGoF_cap_take (h : trim l ≠ [')']) :
    linesGoF execB (l :: rest) (some (p, accRev)) st =
      linesGoF execB rest (some (p, l :: accRev)) st := by
  simp [linesGoF, h]

theorem linesGoF_blank (h : trim l = []) :
    linesGoF execB (l :: rest) none st = linesGoF execB rest none st := by
  simp [linesGoF, h]

theorem linesGoF_comment (h1 : trim l ≠ [])
    (h2 : listStarts ("comment".data) (trim l) = true) :
    linesGoF execB (l :: rest) none st = linesGoF execB rest none st := by
  simp [linesGoF, h1, h2]

theorem linesGoF_run (h1 : trim l ≠ [])
    (h2 : listStarts ("comment".data) (trim l) = false)
    (h3 : (readTok (trim l)).1 ≠ "loop") (h4 : (readTok (trim l)).1 ≠ "if") :
    linesGoF execB (l :: rest) none st =
      linesGoF execB rest none (runLine (trim l) st) := by
  simp [linesGoF, h1, h2, h3, h4]

theorem linesGoF_loop_nocolon (h1 : trim l ≠ [])
    (h2 : listStarts ("comment".data) (trim l) = false)
    (h3 : (readTok (trim l)).1 = "loop")
    (h5 : splitColon ((readTok (readTok (trim l)).2).1).data = none) :
    linesGoF execB (l :: rest) none st =
      linesGoF execB rest none (emit st "Syntax error: loop expects var:count") := by
  simp [linesGoF, h1, h2, h3, h5]

theorem linesGoF_loop_noparen {var ce : List Char} (h1 : trim l ≠ [])
    (h2 : listStarts ("comment".data) (trim l) = false)
    (h3 : (readTok (trim l)).1 = "loop")
    (h5 : splitColon ((readTok (readTok (trim l)).2).1).data = some (var, ce))
    (h6 : (readTok (readTok (readTok (trim l)).2).2).1 ≠ "(") :
    linesGoF execB (l :: rest) none st =
      linesGoF execB rest none (emit st "Syntax error: expected (") := by
  simp [linesGoF, h1, h2, h3, h5, h6]

theorem linesGoF_loop_enter {var ce : List Char} (h1 : trim l ≠ [])
    (h2 : listStarts ("comment".data) (trim l) = false)
    (h3 : (readTok (trim l)).1 = "loop")
    (h5 : splitColon ((readTok (readTok (trim l)).2).1).data = some (var, ce))
    (h6 : (readTok (readTok (readTok (trim l)).2).2).1 = "(") :
    linesGoF execB (l :: rest) none st =
      linesGoF execB rest (some (.ploop (String.mk var) (String.mk ce), [])) st := by
  simp [linesGoF, h1, h2, h3, h5, h6]

theorem linesGoF_if_bad (h1 : trim l ≠ [])
    (h2 : listStarts ("comment".data) (trim l) = false)
    (h3 : (readTok (trim l)).1 ≠ "loop") (h4 : (readTok (trim l)).1 = "if")
    (h7 : splitHeader (trim l) = none) :
    linesGoF execB (l :: rest) none st =
      linesGoF execB rest none
        (emit st "Syntax error: if expects \x27(\x27 at end of line") := by
  simp [linesGoF, h1, h2, h3, h4, h7]

theorem linesGoF_if_enter {bp : List Char} (h1 : trim l ≠ [])
    (h2 : listStarts ("comment".data) (trim l) = false)
    (h3 : (readTok (trim l)).1 ≠ "loop") (h4 : (readTok (trim l)).1 = "if")
    (h7 : splitHeader (trim l) = some bp) :
    linesGoF execB (l :: rest) none st =
      linesGoF execB rest (some (.pif (String.mk (trim (bp.drop 2))), [])) st := by
  have hc2 : (if ¬trim (bp.drop 2) = [] ∧ (trim (bp.drop 2)).head? = some ' '
      then (trim (bp.drop 2)).tail else trim (bp.drop 2)) = trim (bp.drop 2) := by
    split
    · rename_i hcond
      obtain ⟨hne, hhd⟩ := hcond
      cases hct : trim (bp.drop 2) with
      | nil => exact absurd hct hne
      | cons c r =>
        rw [hct] at hhd
        simp at hhd
        have := trim_head hct
        rw [hhd] at this
        simp [cIsSpace] at this
    · rfl
  simp [linesGoF, h1, h2, h3, h4, h7]
  rw [hc2, trim_trim]

/-- `readBlock`, inlined as the capturing mode: raw lines are accumulated
until the closing line. -/
theorem linesGoF_capture {body after : List (List Char)}
    (hb : ∀ b ∈ body, trim b ≠ [')']) :
    linesGoF execB (body ++ after) (some (p, accRev)) st =
      linesGoF execB after (some (p, body.reverse ++ accRev)) st := by
  induction body generalizing accRev with
  | nil => simp
  | cons b bs ih =>
    rw [List.cons_append, linesGoF_cap_take execB _ p accRev st (hb b (by simp)),
      ih _ fun x hx => hb x (by simp [hx])]
    simp

theorem finish_loop_ok {var ce : String} {c : ℚ}
    (h : evalExpr st.vars ce "Loop count error: " = .ok c) :
    finishPending execB (.ploop var ce) accRev st =
      (List.range (⌊c⌋).toNat).foldl
        (fun (s : St) (i : ℕ) =>
          execB (joinNL accRev.reverse) { s with vars := vset s.vars var (i : ℚ) })
        st := by
  simp [finishPending, h]

theorem finish_loop_err {var ce : String} {m : String}
    (h : evalExpr st.vars ce "Loop count error: " = .error m) :
    finishPending execB (.ploop var ce) accRev st = emit st m := by
  simp [finishPending, h]

end ExecSteps

/-! ### Dispatch on the first token of a line -/

theorem dispatch_facts {t : List Char} {s : String}
    (hhd : ∀ c r, t = c :: r → cIsSpace c = false)
    (h : (readTok t).1 = s) (hs : s ≠ "") (hc : s.data.head? ≠ some 'c') :
    t ≠ [] ∧ listStarts ("comment".data) t = false := by
  cases t with
  | nil =>
    rw [readTok_nil] at h
    exact absurd h.symm hs
  | cons d r =>
    have hd : cIsSpace d = false := hhd d r rfl
    refine ⟨by simp, ?_⟩
    have htok : (readTok (d :: r)).1 =
        String.mk (d :: r.takeWhile fun c => !cIsSpace c) := by
      simp [readTok, ltrim_cons hd, List.takeWhile_cons, hd]
    rw [htok] at h
    have hdd : d ≠ 'c' := by
      intro he
      apply hc
      rw [← h, he]
      rfl
    have hcd : ('c' = d) = False := by simp [Ne.symm hdd]
    show listStarts ('c' :: "omment".data) (d :: r) = false
    simp [listStarts, hcd]

theorem runLine_blank {l : List Char} (st : St) (h : trim l = []) :
    runLine l st = st := by
  simp [runLine, h]

theorem runLine_comment {l : List Char} (st : St)
    (h : listStarts ("comment".data) (trim l) = true) :
    runLine l st = st := by
  by_cases ht : trim l = []
  · simp [runLine, ht]
  · simp [runLine, ht, h]

theorem runLine_set {l : List Char} (st : St) (h : (readTok (trim l)).1 = "set") :
    runLine l st =
      (let varTok := readTok (readTok (trim l)).2
       if varTok.1 = "" then emit st "Syntax error: set needs a variable name"
       else
         let tokTok := readTok varTok.2
         if tokTok.1 ≠ "=" then
           match evalExpr st.vars (String.mk (trim (tokTok.1.data ++ tokTok.2)))
               "Set expr error: " with
           | .ok v => { st with vars := vset st.vars varTok.1 v }
           | .error e => emit st e
         else
           let ex := trim tokTok.2
           if ex = [] then emit st "Syntax error: set needs an expression"
           else
             match evalExpr st.vars (String.mk ex) "Set expr error: " with
             | .ok v => { st with vars := vset st.vars varTok.1 v }
             | .error e => emit st e) := by
  obtain ⟨hne, hcm⟩ :=
    dispatch_facts (fun c r hcr => trim_head hcr) h (by decide) (by decide)
  simp [runLine, h, hne, hcm]

theorem runLine_print {l : List Char} (st : St) (h : (readTok (trim l)).1 = "print") :
    runLine l st =
      (let rest := trim (readTok (trim l)).2
       if 2 ≤ rest.length ∧ rest.head? = some '"' ∧ rest.getLast? = some '"' then
         emit st (String.mk ((rest.drop 1).dropLast))
       else if rest ≠ [] ∧ (vlookup st.vars (String.mk rest)).isSome then
         emit st (printNumberNicely ((vlookup st.vars (String.mk rest)).getD 0))
       else
         match evalExpr st.vars (String.mk rest) "Print expr error: " with
         | .ok v => emit st (printNumberNicely v)
         | .error _ => emit st (String.mk rest)) := by
  obtain ⟨hne, hcm⟩ :=
    dispatch_facts (fun c r hcr => trim_head hcr) h (by decide) (by decide)
  simp [runLine, h, hne, hcm]

theorem runLine_unknown {l : List Char} (st : St) (hne : trim l ≠ [])
    (hcm : listStarts ("comment".data) (trim l) = false)
    (h1 : (readTok (trim l)).1 ≠ "print") (h2 : (readTok (trim l)).1 ≠ "set")
    (h3 : (readTok (trim l)).1 ≠ "add") :
    runLine l st = emit st ("Unknown command: " ++ (readTok (trim l)).1) := by
  simp [runLine, hne, hcm, h1, h2, h3]

/-! ### Boolean-valued operators -/

theorem denoteOr_bool (e : OrE) (h : boolHeaded e = true) :
    denoteOr e = 0 ∨ denoteOr e = 1 := by
  cases e with
  | orr l a => simp only [denoteOr]; split <;> simp
  | one a =>
    cases a with
    | andd l q => simp only [denoteOr, denoteAnd]; split <;> simp
    | one q =>
      cases q with
      | eqq l c => simp only [denoteOr, denoteAnd, denoteEq]; split <;> simp
      | neq l c => simp only [denoteOr, denoteAnd, denoteEq]; split <;> simp
      | one c =>
        cases c with
        | gtc l t => simp only [denoteOr, denoteAnd, denoteEq, denoteCmp]; split <;> simp
        | ltc l t => simp only [denoteOr, denoteAnd, denoteEq, denoteCmp]; split <;> simp
        | gec l t => simp only [denoteOr, denoteAnd, denoteEq, denoteCmp]; split <;> simp
        | lec l t => simp only [denoteOr, denoteAnd, denoteEq, denoteCmp]; split <;> simp
        | one t =>
          cases t with
          | add l f => simp [boolHeaded] at h
          | sub l f => simp [boolHeaded] at h
          | one f =>
            cases f with
            | mul l u => simp [boolHeaded] at h
            | div l u => simp [boolHeaded] at h
            | mod l u => simp [boolHeaded] at h
            | one u =>
              cases u with
              | prim p => simp [boolHeaded] at h
              | pos v => simp [boolHeaded] at h
              | neg v => simp [boolHeaded] at h
              | lnot v =>
                simp only [denoteOr, denoteAnd, denoteEq, denoteCmp, denoteTerm,
                  denoteFac, denoteUn]
                split <;> simp

/-! ### Integer rendering has no point and no exponent -/

theorem zRepr_chars (n : ℤ) : ∀ c ∈ (zRepr n).data, c = '-' ∨ cIsDigit c = true := by
  cases n with
  | ofNat m =>
    intro c hc
    right
    exact natToChars_digits m c (by simpa [zRepr] using hc)
  | negSucc m =>
    intro c hc
    have : c = '-' ∨ c ∈ natToChars (m + 1) := by
      simpa [zRepr, String.data] using hc
    rcases this with h | h
    · left; exact h
    · right; exact natToChars_digits (m + 1) c h

theorem zRepr_plain (n : ℤ) :
    '.' ∉ (zRepr n).data ∧ 'e' ∉ (zRepr n).data ∧ 'E' ∉ (zRepr n).data := by
  refine ⟨fun h => ?_, fun h => ?_, fun h => ?_⟩ <;>
    rcases zRepr_chars n _ h with h2 | h2 <;> simp [cIsDigit] at h2

/-! ## The claims -/

/-- Claim C2: for every valid arithmetic expression without variables
(reified as a syntax tree of the expression grammar, printed in concrete
syntax), the evaluator returns the value obtained by direct evaluation
under standard operator precedence and left associativity; in particular
evaluating the text "2 + 3 * 4" returns 14 and evaluating "(2 + 3) * 4"
returns 20. -/
theorem claim2_eval_precedence :
    (∀ (Γ : VarMap) (et : String) (e : OrE),
      evalExpr Γ (String.mk (printOr e)) et = .ok (denoteOr e)) ∧
    evalExpr [] "2 + 3 * 4" = .ok 14 ∧ evalExpr [] "(2 + 3) * 4" = .ok 20 := by
  refine ⟨evalExpr_print, ?_, ?_⟩ <;> with_unfolding_all rfl

/-- Claim C5: every expression whose outermost operation is a comparison,
an equality test, a logical connective or a logical negation evaluates to
exactly 0 or exactly 1; and "5 > 3 && 2 < 1" evaluates to 0 while
"5 > 3 || 2 < 1" evaluates to 1. -/
theorem claim5_bool_valued :
    (∀ (Γ : VarMap) (et : String) (e : OrE), boolHeaded e = true →
      ∃ v, evalExpr Γ (String.mk (printOr e)) et = .ok v ∧ (v = 0 ∨ v = 1)) ∧
    evalExpr [] "5 > 3 && 2 < 1" = .ok 0 ∧
    evalExpr [] "5 > 3 || 2 < 1" = .ok 1 := by
  refine ⟨fun Γ et e h => ⟨denoteOr e, evalExpr_print Γ et e, denoteOr_bool e h⟩, ?_, ?_⟩ <;>
    with_unfolding_all rfl

/-- Witness for C5: the tree of `1||0` is boolean-headed and its evaluation
is 0 or 1. -/
theorem claim5_bool_valued_witness :
    ∃ v, evalExpr [] (String.mk (printOr (OrE.orr
        (.one (.one (.one (.one (.one (.one (.prim (.num 1))))))))
        (.one (.one (.one (.one (.one (.prim (.num 0)))))))))) "Expr error: " = .ok v ∧
      (v = 0 ∨ v = 1) :=
  claim5_bool_valued.1 [] "Expr error: "
    (OrE.orr (.one (.one (.one (.one (.one (.one (.prim (.num 1))))))))
      (.one (.one (.one (.one (.one (.prim (.num 0)))))))) rfl

/-- Claim C9: when number scanning meets an exponent marker (optionally
followed by a sign) with no digit after it, the marker and sign are not
consumed: the literal consists only of the digits before the marker and
parsing resumes from the marker. -/
theorem claim9_exp_rollback :
    ∀ (et : String) (ds : List Char), ds ≠ [] →
      (∀ c ∈ ds, cIsDigit c = true) →
      ∀ (m : Char), m = 'e' ∨ m = 'E' →
      ∀ (sgn rest : List Char), sgn = [] ∨ sgn = ['+'] ∨ sgn = ['-'] →
      (∀ c, rest.head? = some c → cIsDigit c = false) →
      (sgn = [] → ∀ c, rest.head? = some c → c ≠ '+' ∧ c ≠ '-') →
      parseNumber et (ds ++ m :: (sgn ++ rest)) =
        .ok ((charsToNat ds : ℚ), m :: (sgn ++ rest)) :=
  fun et _ h1 h2 _ h3 _ _ h4 h5 h6 =>
    parseNumber_expRollback et h1 h2 h3 h4 h5 h6

/-- Claim C8: for every printed value v, if v is within 1e-9 of its nearest
integer (ties away from zero, as `round`) the output is that integer with
no decimal point and no exponent; otherwise the output is the 12
significant-digit rendering. In particular 4.000000000001 prints as 4, and
3.14159265358 prints with 12 significant digits. -/
theorem claim8_print_tolerance :
    (∀ v : ℚ,
      (|v - (croundZ v : ℚ)| < 1 / 1000000000 →
        printNumberNicely v = zRepr (croundZ v) ∧
        '.' ∉ (printNumberNicely v).data ∧
        'e' ∉ (printNumberNicely v).data ∧
        'E' ∉ (printNumberNicely v).data) ∧
      (¬|v - (croundZ v : ℚ)| < 1 / 1000000000 →
        printNumberNicely v = formatG12 v)) ∧
    printNumberNicely (4000000000001 / 1000000000000) = "4" ∧
    printNumberNicely (314159265358 / 100000000000) = "3.14159265358" := by
  refine ⟨fun v => ⟨fun h => ?_, fun h => ?_⟩, ?_, ?_⟩
  · have he : printNumberNicely v = zRepr (croundZ v) := by
      simp only [printNumberNicely]
      rw [if_pos h]
    exact ⟨he, he ▸ zRepr_plain (croundZ v)⟩
  · simp only [printNumberNicely]
    rw [if_neg h]
  · with_unfolding_all rfl
  · with_unfolding_all rfl

/-- Witness for C8: the value 4.000000000001 is within tolerance of 4 and
prints as the plain integer rendering. -/
theorem claim8_print_tolerance_witness :
    printNumberNicely (4000000000001 / 1000000000000) =
      zRepr (croundZ (4000000000001 / 1000000000000)) ∧
    '.' ∉ (printNumberNicely (4000000000001 / 1000000000000)).data ∧
    'e' ∉ (printNumberNicely (4000000000001 / 1000000000000)).data ∧
    'E' ∉ (printNumberNicely (4000000000001 / 1000000000000)).data :=
  (claim8_print_tolerance.1 (4000000000001 / 1000000000000)).1
    (of_decide_eq_true (by with_unfolding_all rfl))

/-- Witness for C9: scanning `12e+x` yields the number 12 with `e+x` left
unconsumed. -/
theorem claim9_exp_rollback_witness :
    parseNumber "Expr error: " (['1', '2'] ++ 'e' :: (['+'] ++ ['x'])) =
      .ok ((charsToNat ['1', '2'] : ℚ), 'e' :: (['+'] ++ ['x'])) :=
  claim9_exp_rollback "Expr error: " ['1', '2'] (by decide) (by decide) 'e' (Or.inl rfl)
    ['+'] ['x'] (Or.inr (Or.inl rfl))
    (by intro c hc; simp at hc; subst hc; rfl)
    (by intro h; simp at h)

/-- Claim C10: a loop header is accepted (block capture begins) exactly when
splitting the second whitespace-delimited token of the line at its first
colon succeeds and the third token is exactly `(`; otherwise a syntax error
is emitted and no block capture (hence no loop iteration) happens. In
particular, for `loop i:n + 1 (` (whitespace inside the count expression)
the executor emits `Syntax error: expected (` and the body then runs as
plain top-level lines, here printing 5 once and reporting the stray `)`. -/
theorem claim10_loop_header :
    (∀ (execB : String → St → St) (l : List Char) (rest : List (List Char)) (st : St),
      trim l ≠ [] → listStarts ("comment".data) (trim l) = false →
      (readTok (trim l)).1 = "loop" →
      (splitColon ((readTok (readTok (trim l)).2).1).data = none →
        linesGoF execB (l :: rest) none st =
          linesGoF execB rest none (emit st "Syntax error: loop expects var:count")) ∧
      (∀ var ce, splitColon ((readTok (readTok (trim l)).2).1).data = some (var, ce) →
        ((readTok (readTok (readTok (trim l)).2).2).1 ≠ "(" →
          linesGoF execB (l :: rest) none st =
            linesGoF execB rest none (emit st "Syntax error: expected (")) ∧
        ((readTok (readTok (readTok (trim l)).2).2).1 = "(" →
          linesGoF execB (l :: rest) none st =
            linesGoF execB rest
              (some (.ploop (String.mk var) (String.mk ce), [])) st))) ∧
    run "loop i:n + 1 (\nprint 5\n)" =
      ["Syntax error: expected (", "5", "Unknown command: )"] := by
  refine ⟨fun execB l rest st h1 h2 h3 =>
    ⟨fun h5 => linesGoF_loop_nocolon execB rest st h1 h2 h3 h5,
     fun var ce h5 =>
      ⟨fun h6 => linesGoF_loop_noparen execB rest st h1 h2 h3 h5 h6,
       fun h6 => linesGoF_loop_enter execB rest st h1 h2 h3 h5 h6⟩⟩, ?_⟩
  with_unfolding_all rfl

/-- Witness for C10: on the line `loop i:n + 1 (` the second token is `i:n`,
the third token is `+`, and the executor emits the syntax error. -/
theorem claim10_loop_header_witness :
    linesGoF (fun _ s => s) ["loop i:n + 1 (".data] none initSt =
      linesGoF (fun _ s => s) [] none (emit initSt "Syntax error: expected (") :=
  (((claim10_loop_header.1 (fun _ s => s) "loop i:n + 1 (".data [] initSt
      (by decide) (by decide) (by decide)).2 ['i'] ['n']
      (by decide)).1) (by decide)

/-- Claim C1 fails as stated: block capture stops at the FIRST line whose
trimmed content is `)`, so the nested block of
`loop i:2 ( / if i == 1 ( / print i / ) / )` is truncated at the inner `)`
and the outer `)` is then reported as an unknown command; the output is
`["1", "Unknown command: )"]`, not exactly `["1"]`. -/
theorem claim1_counterexample :
    run "loop i:2 (\nif i == 1 (\nprint i\n)\n)" = ["1", "Unknown command: )"] ∧
      (["1", "Unknown command: )"] : List String) ≠ ["1"] :=
  ⟨by with_unfolding_all rfl, by decide⟩

/-- Claim C1, amended: a line trimming to `)` always closes the innermost
pending block (capture is not nesting-aware), and the nested script
`loop i:2 ( / if i == 1 ( / print i / ) / )` outputs the line `1` followed
by `Unknown command: )` for the orphaned outer delimiter. -/
theorem claim1_amended :
    (∀ (execB : String → St → St) (rest : List (List Char)) (p : Pending)
        (accRev : List (List Char)) (st : St) (l : List Char), trim l = [')'] →
      linesGoF execB (l :: rest) (some (p, accRev)) st =
        linesGoF execB rest none (finishPending execB p accRev st)) ∧
    run "loop i:2 (\nif i == 1 (\nprint i\n)\n)" = ["1", "Unknown command: )"] :=
  ⟨fun execB rest p accRev st _ h => linesGoF_cap_close execB rest p accRev st h,
   by with_unfolding_all rfl⟩

/-- Witness for the amended C1: a `)` line closes a pending `if` block. -/
theorem claim1_amended_witness :
    linesGoF (fun _ s => s) [")".data] (some (.pif "1", [])) initSt =
      linesGoF (fun _ s => s) [] none
        (finishPending (fun _ s => s) (.pif "1") [] initSt) :=
  claim1_amended.1 (fun _ s => s) [] (.pif "1") [] initSt ")".data (by decide)

/-- Claim C7 fails as stated: the comment test is a prefix match on the
trimmed line, not a first-token match; the line `commentary 1`, whose
first token is `commentary` (not `comment`), is silently ignored instead
of producing `Unknown command: commentary`. -/
theorem claim7_counterexample :
    run "commentary 1" = [] ∧
      (readTok (trim "commentary 1".data)).1 = "commentary" ∧
      ("commentary" : String) ≠ "comment" :=
  ⟨by with_unfolding_all rfl, by decide, by decide⟩

/-- Claim C7, amended: a non-blank line is silently ignored exactly when its
trimmed text starts with the seven characters `comment` (so also e.g.
`commentary 1`); a non-blank line without that prefix whose first token is
none of print, set, add, loop, if is reported as
`Unknown command: <token>` and execution continues. -/
theorem claim7_amended :
    (∀ (execB : String → St → St) (l : List Char) (rest : List (List Char)) (st : St),
      listStarts ("comment".data) (trim l) = true →
      linesGoF execB (l :: rest) none st = linesGoF execB rest none st) ∧
    (∀ (execB : String → St → St) (l : List Char) (rest : List (List Char)) (st : St),
      trim l ≠ [] → listStarts ("comment".data) (trim l) = false →
      (readTok (trim l)).1 ≠ "print" → (readTok (trim l)).1 ≠ "set" →
      (readTok (trim l)).1 ≠ "add" → (readTok (trim l)).1 ≠ "loop" →
      (readTok (trim l)).1 ≠ "if" →
      linesGoF execB (l :: rest) none st =
        linesGoF execB rest none
          (emit st ("Unknown command: " ++ (readTok (trim l)).1))) ∧
    run "commentary 1" = [] := by
  refine ⟨fun execB l rest st h => ?_, fun execB l rest st h1 h2 hp hs ha hl hi => ?_, ?_⟩
  · by_cases ht : trim l = []
    · exact linesGoF_blank execB rest st ht
    · exact linesGoF_comment execB rest st ht h
  · rw [linesGoF_run execB rest st h1 h2 hl hi]
    have h1t : trim (trim l) ≠ [] := by rw [trim_trim]; exact h1
    have h2t : listStarts ("comment".data) (trim (trim l)) = false := by
      rw [trim_trim]; exact h2
    have hpt : (readTok (trim (trim l))).1 ≠ "print" := by rw [trim_trim]; exact hp
    have hst : (readTok (trim (trim l))).1 ≠ "set" := by rw [trim_trim]; exact hs
    have hat : (readTok (trim (trim l))).1 ≠ "add" := by rw [trim_trim]; exact ha
    rw [runLine_unknown st h1t h2t hpt hst hat, trim_trim]
  · with_unfolding_all rfl

/-- Witness for the amended C7: the line `commentary 1` is skipped, and the
line `foo 1` is reported as an unknown command. -/
theorem claim7_amended_witness :
    linesGoF (fun _ s => s) ["commentary 1".data] none initSt =
        linesGoF (fun _ s => s) [] none initSt ∧
      linesGoF (fun _ s => s) ["foo 1".data] none initSt =
        linesGoF (fun _ s => s) [] none
          (emit initSt ("Unknown command: " ++ (readTok (trim "foo 1".data)).1)) :=
  ⟨claim7_amended.1 (fun _ s => s) "commentary 1".data [] initSt (by decide),
   claim7_amended.2.1 (fun _ s => s) "foo 1".data [] initSt (by decide) (by decide)
     (by decide) (by decide) (by decide) (by decide) (by decide)⟩

/-- Claim C4: for a `set <var> = <expr>` or `set <var> <expr>` statement
(with nonempty variable token, and a nonempty expression in the `=` form),
successful evaluation stores the result into the variable — creating it if
absent — with no output; failed evaluation emits the failure message and
leaves the store exactly unchanged. -/
theorem claim4_set :
    ∀ (l : List Char) (st : St),
      (readTok (trim l)).1 = "set" →
      (readTok (readTok (trim l)).2).1 ≠ "" →
      ∀ ex : List Char,
      ex = (if (readTok (readTok (readTok (trim l)).2).2).1 ≠ "="
            then trim ((readTok (readTok (readTok (trim l)).2).2).1.data ++
                       (readTok (readTok (readTok (trim l)).2).2).2)
            else trim (readTok (readTok (readTok (trim l)).2).2).2) →
      ((readTok (readTok (readTok (trim l)).2).2).1 = "=" → ex ≠ []) →
      (∀ v, evalExpr st.vars (String.mk ex) "Set expr error: " = .ok v →
        runLine l st =
          { st with vars := vset st.vars (readTok (readTok (trim l)).2).1 v } ∧
        (runLine l st).out = st.out ∧
        vlookup (runLine l st).vars (readTok (readTok (trim l)).2).1 = some v) ∧
      (∀ m, evalExpr st.vars (String.mk ex) "Set expr error: " = .error m →
        runLine l st = emit st m ∧ (runLine l st).vars = st.vars) := by
  intro l st hset hvar ex hex hne
  have hrl : runLine l st =
      (match evalExpr st.vars (String.mk ex) "Set expr error: " with
       | .ok v => { st with vars := vset st.vars (readTok (readTok (trim l)).2).1 v }
       | .error e => emit st e) := by
    rw [runLine_set st hset]
    by_cases heq : (readTok (readTok (readTok (trim l)).2).2).1 = "="
    · have hexx : ex = trim (readTok (readTok (readTok (trim l)).2).2).2 := by
        rw [hex, if_neg (not_not_intro heq)]
      have hnee := hne heq
      rw [if_neg hvar, if_neg (not_not_intro heq), ← hexx, if_neg hnee]
    · have hexx : ex = trim ((readTok (readTok (readTok (trim l)).2).2).1.data ++
          (readTok (readTok (readTok (trim l)).2).2).2) := by
        rw [hex, if_pos heq]
      rw [if_neg hvar, if_pos heq, ← hexx]
  refine ⟨fun v hv => ?_, fun m hm => ?_⟩
  · rw [hrl, hv]
    exact ⟨rfl, rfl, vlookup_vset st.vars _ v⟩
  · rw [hrl, hm]
    exact ⟨rfl, rfl⟩

/-- Witness for C4: `set x = 2 + 3` stores 5 into `x` with no output. -/
theorem claim4_set_witness :
    runLine "set x = 2 + 3".data initSt =
        { initSt with vars := vset initSt.vars "x" 5 } ∧
      (runLine "set x = 2 + 3".data initSt).out = initSt.out ∧
      vlookup (runLine "set x = 2 + 3".data initSt).vars "x" = some 5 :=
  (claim4_set "set x = 2 + 3".data initSt (by decide) (by decide) "2 + 3".data
    (by decide) (fun _ => by decide)).1 5 (by with_unfolding_all rfl)

/-- Claim C6: for a `print <rest>` statement where the remainder is not a
double-quoted literal and not exactly an existing variable name, successful
expression evaluation prints the formatted result, and failed evaluation
prints exactly the raw remainder text, never the error message. -/
theorem claim6_print_fallback :
    ∀ (l : List Char) (st : St),
      (readTok (trim l)).1 = "print" →
      ¬(2 ≤ (trim (readTok (trim l)).2).length ∧
        (trim (readTok (trim l)).2).head? = some '"' ∧
        (trim (readTok (trim l)).2).getLast? = some '"') →
      ¬(trim (readTok (trim l)).2 ≠ [] ∧
        (vlookup st.vars (String.mk (trim (readTok (trim l)).2))).isSome = true) →
      (∀ v, evalExpr st.vars (String.mk (trim (readTok (trim l)).2))
          "Print expr error: " = .ok v →
        runLine l st = emit st (printNumberNicely v)) ∧
      (∀ m, evalExpr st.vars (String.mk (trim (readTok (trim l)).2))
          "Print expr error: " = .error m →
        runLine l st = emit st (String.mk (trim (readTok (trim l)).2))) := by
  intro l st hp hq hv
  have hrl : runLine l st =
      (match evalExpr st.vars (String.mk (trim (readTok (trim l)).2))
          "Print expr error: " with
       | .ok v => emit st (printNumberNicely v)
       | .error _ => emit st (String.mk (trim (readTok (trim l)).2))) := by
    rw [runLine_print st hp]
    rw [if_neg hq, if_neg hv]
  exact ⟨fun v hv' => by rw [hrl, hv'], fun m hm => by rw [hrl, hm]⟩

/-- Witness for C6: `print 2 + 3` formats and prints the value 5. -/
theorem claim6_print_fallback_witness :
    runLine "print 2 + 3".data initSt = emit initSt (printNumberNicely 5) :=
  (claim6_print_fallback "print 2 + 3".data initSt (by decide) (by decide)
    (by decide)).1 5 (by with_unfolding_all rfl)

/-- Claim C3 fails as stated: the block body can overwrite the loop
variable, so the store after a loop with N ≥ 1 iterations need not map the
variable to N-1. Running `loop i:2 ( / set i = 99 / )` leaves `i` at 99,
not at 2 - 1 = 1. -/
theorem claim3_counterexample :
    vlookup (execGo 4 "loop i:2 (\nset i = 99\n)" initSt).vars "i" = some 99 ∧
      (99 : ℚ) ≠ 2 - 1 :=
  ⟨by with_unfolding_all rfl, by norm_num⟩

/-- Claim C3, amended: a loop whose count expression evaluates to c runs the
captured block exactly ⌊c⌋ times when ⌊c⌋ > 0 and zero times with no error
output when ⌊c⌋ ≤ 0, storing i into the variable before iteration i; and
when the block never changes the loop variable away from the value just
stored, the store after a loop with ⌊c⌋ ≥ 1 maps the variable to ⌊c⌋ - 1. -/
theorem claim3_loop_semantics :
    ∀ (execB : String → St → St) (l : List Char) (body rest : List (List Char))
      (cl : List Char) (st : St) (var ce : List Char) (c : ℚ),
      trim l ≠ [] → listStarts ("comment".data) (trim l) = false →
      (readTok (trim l)).1 = "loop" →
      splitColon ((readTok (readTok (trim l)).2).1).data = some (var, ce) →
      (readTok (readTok (readTok (trim l)).2).2).1 = "(" →
      (∀ b ∈ body, trim b ≠ [')']) → trim cl = [')'] →
      evalExpr st.vars (String.mk ce) "Loop count error: " = .ok c →
      (linesGoF execB (l :: (body ++ cl :: rest)) none st =
        linesGoF execB rest none
          ((List.range (⌊c⌋).toNat).foldl
            (fun (s : St) (i : ℕ) => execB (joinNL body)
              { s with vars := vset s.vars (String.mk var) (i : ℚ) }) st)) ∧
      (⌊c⌋ ≤ 0 → linesGoF execB (l :: (body ++ cl :: rest)) none st =
        linesGoF execB rest none st) ∧
      ((∀ (s : St) (i : ℚ),
          vlookup (execB (joinNL body)
            { s with vars := vset s.vars (String.mk var) i }).vars
            (String.mk var) = some i) →
        1 ≤ ⌊c⌋ →
        vlookup ((List.range (⌊c⌋).toNat).foldl
            (fun (s : St) (i : ℕ) => execB (joinNL body)
              { s with vars := vset s.vars (String.mk var) (i : ℚ) }) st).vars
          (String.mk var) = some ((⌊c⌋ - 1 : ℤ) : ℚ)) := by
  intro execB l body rest cl st var ce c h1 h2 h3 h5 h6 hb hcl hev
  have hfold : finishPending execB (.ploop (String.mk var) (String.mk ce))
      (body.reverse ++ []) st =
      (List.range (⌊c⌋).toNat).foldl
        (fun (s : St) (i : ℕ) => execB (joinNL body)
          { s with vars := vset s.vars (String.mk var) (i : ℚ) }) st := by
    rw [finish_loop_ok execB (body.reverse ++ []) st hev]
    simp only [List.append_nil, List.reverse_reverse]
  have hA : linesGoF execB (l :: (body ++ cl :: rest)) none st =
      linesGoF execB rest none
        ((List.range (⌊c⌋).toNat).foldl
          (fun (s : St) (i : ℕ) => execB (joinNL body)
            { s with vars := vset s.vars (String.mk var) (i : ℚ) }) st) := by
    rw [linesGoF_loop_enter execB (body ++ cl :: rest) st h1 h2 h3 h5 h6,
      linesGoF_capture execB _ [] st hb,
      linesGoF_cap_close execB rest _ _ st hcl, hfold]
  refine ⟨hA, fun hle => ?_, fun hpres hge => ?_⟩
  · rw [hA]
    have hz : (⌊c⌋).toNat = 0 := by omega
    rw [hz]
    rfl
  · have hN : (⌊c⌋).toNat = ((⌊c⌋).toNat - 1) + 1 := by omega
    rw [hN, List.range_succ, List.foldl_append]
    simp only [List.foldl_cons, List.foldl_nil]
    rw [hpres]
    have hz : ((⌊c⌋).toNat - 1 : ℕ) = (⌊c⌋ - 1 : ℤ).toNat := by omega
    have e1 : ((⌊c⌋ - 1 : ℤ).toNat : ℤ) = ⌊c⌋ - 1 := Int.toNat_of_nonneg (by omega)
    have hcast : (((⌊c⌋).toNat - 1 : ℕ) : ℚ) = ((⌊c⌋ - 1 : ℤ) : ℚ) := by
      calc (((⌊c⌋).toNat - 1 : ℕ) : ℚ)
          = (((⌊c⌋ - 1 : ℤ).toNat : ℕ) : ℚ) := by rw [hz]
        _ = (((⌊c⌋ - 1 : ℤ).toNat : ℤ) : ℚ) := by norm_cast
        _ = ((⌊c⌋ - 1 : ℤ) : ℚ) := by rw [e1]
    rw [hcast]

/-- Witness for the amended C3: `loop i:1 (` with an empty body runs the
fold over one iteration. -/
theorem claim3_loop_semantics_witness :
    linesGoF (fun _ s => s) ("loop i:1 (".data :: ([] ++ ")".data :: [])) none initSt =
      linesGoF (fun _ s => s) [] none
        ((List.range (⌊(1 : ℚ)⌋).toNat).foldl
          (fun (s : St) (i : ℕ) =>
            (fun (_ : String) (s2 : St) => s2) (joinNL ([] : List (List Char)))
            { s with vars := vset s.vars (String.mk ['i']) (i : ℚ) }) initSt) :=
  (claim3_loop_semantics (fun _ s => s) "loop i:1 (".data [] [] ")".data initSt
    ['i'] ['1'] 1 (by decide) (by decide) (by decide) (by decide) (by decide)
    (by simp) (by decide) (by with_unfolding_all rfl)).1

end NanLang
